import Mathlib

/-!
Verification of the text-processing pipeline of a blog summarizer/translator:
the extractive summarizer (src/lib/summarizer.ts), the Urdu text quality
engine (urdu-utils), the dictionary fallback translator, the Cohere service
wrapper (src/lib/cohere.ts) and the scraper's content validator.

Strings are modelled as `List Char`; JavaScript string/regex operations are
embedded as executable Lean functions on character lists.  JS `charCodeAt`
equals the code point for all BMP characters, which covers every character
class used by the source.
-/

/-- Strings of the embedded program: lists of characters. -/
abbrev Str := List Char

/-- View a Lean string literal as a `Str`. -/
def s2l (s : String) : Str := s.data

/-- JS `\s` (whitespace) character class. -/
def isJsWs (c : Char) : Bool :=
  let n := c.toNat
  decide (n = 32 ∨ (9 ≤ n ∧ n ≤ 13) ∨ n = 0xA0 ∨ n = 0x1680 ∨
    (0x2000 ≤ n ∧ n ≤ 0x200A) ∨ n = 0x2028 ∨ n = 0x2029 ∨ n = 0x202F ∨
    n = 0x205F ∨ n = 0x3000 ∨ n = 0xFEFF)

/-- JS `String.prototype.trim`: drop whitespace from both ends. -/
def trimS (l : Str) : Str := List.rdropWhile isJsWs (List.dropWhile isJsWs l)

/-- Worker for `collapseWs`; the flag records whether the previous character
was whitespace (JS `replace(/\s+/g, ' ')` emits one space per run). -/
def cwGo : Bool → Str → Str
  | _, [] => []
  | inWs, c :: r =>
    if isJsWs c then (if inWs then cwGo true r else ' ' :: cwGo true r)
    else c :: cwGo false r

/-- JS `replace(/\s+/g, ' ')`. -/
def collapseWs (l : Str) : Str := cwGo false l

/-- Prepend a character to the first fragment of a split result. -/
def consHead (c : Char) : List Str → List Str
  | [] => [[c]]
  | f :: fs => (c :: f) :: fs

/-- Worker for `splitRuns`; the flag records whether we are inside a
separator run that has already opened a new fragment. -/
def srGo (p : Char → Bool) : Bool → Str → List Str
  | _, [] => [[]]
  | skipping, c :: rest =>
    if p c then
      if skipping then srGo p true rest else [] :: srGo p true rest
    else consHead c (srGo p false rest)

/-- JS `split` on a one-or-more character-class regex (e.g. `/[.!?]+/`,
`/\s+/`, `/\n+/`): a run of separator characters is a single separator, and
empty leading/trailing fragments are kept, as JS does. -/
def splitRuns (p : Char → Bool) (l : Str) : List Str := srGo p false l

/-- Worker for `countRuns`. -/
def crGo (p : Char → Bool) : Bool → Str → ℕ
  | _, [] => 0
  | inRun, c :: r =>
    if p c then (if inRun then crGo p true r else crGo p true r + 1)
    else crGo p false r

/-- Number of maximal runs of `p`-characters: the number of matches of a
global regex `/X+/g` where `X` is the class `p`. -/
def countRuns (p : Char → Bool) (l : Str) : ℕ := crGo p false l

/-- Does `hay` start with `needle`? -/
def startsWithL : Str → Str → Bool
  | [], _ => true
  | _ :: _, [] => false
  | a :: as, b :: bs => a == b && startsWithL as bs

/-- JS `String.prototype.includes`: `needle` occurs somewhere in the list. -/
def hasSubstr (needle : Str) : Str → Bool
  | [] => needle.isEmpty
  | l@(_ :: t) => startsWithL needle l || hasSubstr needle t

/-- JS `Array.prototype.join` with a separator. -/
def joinSep (sep : Str) : List Str → Str
  | [] => []
  | [x] => x
  | x :: xs => x ++ sep ++ joinSep sep xs

/-- JS `String.prototype.toLowerCase`, for the ASCII range used by the
source's dictionaries and keyword lists (other characters are unchanged). -/
def toLowerAscii (l : Str) : Str :=
  l.map (fun c => if 'A' ≤ c ∧ c ≤ 'Z' then Char.ofNat (c.toNat + 32) else c)

/-- Membership of a character in a literal character set. -/
def charIn (cs : Str) (c : Char) : Bool := cs.contains c

/- ## Extractive summarizer (src/lib/summarizer.ts) -/

/-- `SummaryResult` of src/lib/cohere.ts. -/
structure SummaryResult where
  summary : Str
  keyPoints : List Str
  wordCount : ℕ
  originalLength : ℕ
deriving DecidableEq, Repr

/-- JS `\w` class: `[A-Za-z0-9_]`. -/
def isWordChar (c : Char) : Bool :=
  decide (('a' ≤ c ∧ c ≤ 'z') ∨ ('A' ≤ c ∧ c ≤ 'Z') ∨ ('0' ≤ c ∧ c ≤ '9') ∨ c = '_')

/-- `preprocessContent`: collapse whitespace, drop characters outside
`[\w\s.,!?;:()[\]{}'"]`, trim. -/
def preprocessContent (content : Str) : Str :=
  trimS ((collapseWs content).filter
    (fun c => isWordChar c || isJsWs c || charIn (s2l ".,!?;:()[]{}'\"") c))

/-- Sentence terminators of the summarizer: `[.!?]`. -/
def isSumTerm (c : Char) : Bool := charIn (s2l ".!?") c

/-- `extractSentences`: split on `[.!?]+`, trim, keep segments longer than
15 characters with at least 3 whitespace-separated parts. -/
def extractSentences (content : Str) : List Str :=
  ((splitRuns isSumTerm content).map trimS).filter
    (fun s => decide (15 < s.length) && decide (3 ≤ (splitRuns isJsWs s).length))

/-- The summarizer's importance lexicon, as iterated by the source's
`Set` (insertion order, duplicates dropped: `study` is listed twice). -/
def importantTerms : List Str :=
  [s2l "important", s2l "significant", s2l "key", s2l "main", s2l "primary",
   s2l "essential", s2l "crucial", s2l "major", s2l "fundamental",
   s2l "critical", s2l "vital", s2l "necessary", s2l "therefore",
   s2l "however", s2l "moreover", s2l "furthermore", s2l "consequently",
   s2l "result", s2l "conclusion", s2l "summary", s2l "findings",
   s2l "discovered", s2l "research", s2l "study", s2l "analysis",
   s2l "data", s2l "evidence", s2l "shows", s2l "reveals", s2l "indicates",
   s2l "suggests", s2l "demonstrates", s2l "proves", s2l "according",
   s2l "expert", s2l "report"]

/-- A scored sentence: `{ sentence, score, index }`. -/
structure ScoredSentence where
  sentence : Str
  score : ℤ
  index : ℕ
deriving DecidableEq, Repr

/-- The two position bonuses of `scoreSentences`: `+3` if
`index < total * 0.2`, and independently `+2` if `index > total * 0.8`.
An integer `index` compares with `total * 0.2` (resp. `0.8`) exactly as
with the rational `total / 5` (resp. `4 * total / 5`), so the comparisons
are embedded cross-multiplied by 10. -/
def positionScore (index total : ℕ) : ℤ :=
  (if 10 * index < 2 * total then 3 else 0) +
  (if 10 * index > 8 * total then 2 else 0)

/-- Score one sentence as `scoreSentences` does, given its index and the
total number of sentences. -/
def scoreOne (sentence : Str) (index total : ℕ) : ScoredSentence :=
  let lowerSentence := toLowerAscii sentence
  let wordCount := (splitRuns isJsWs lowerSentence).length
  let lengthScore : ℤ :=
    if 10 ≤ wordCount ∧ wordCount ≤ 30 then 2
    else if 8 ≤ wordCount ∧ wordCount ≤ 35 then 1 else 0
  let importantTermCount := (importantTerms.filter
    (fun term => hasSubstr term lowerSentence)).length
  let numberMatches := countRuns (fun c => decide ('0' ≤ c ∧ c ≤ '9')) sentence
  let specialCharMatches := (sentence.filter (charIn (s2l "()[]{}"))).length
  let score : ℤ := positionScore index total + lengthScore
    + importantTermCount
    + (if 2 ≤ importantTermCount then 1 else 0)
    - (if 3 < numberMatches then 1 else 0)
    - (if 2 < specialCharMatches then 1 else 0)
  ⟨sentence, score, index⟩

/-- Worker: score the sentences starting at a given index. -/
def scoreFrom (total : ℕ) : ℕ → List Str → List ScoredSentence
  | _, [] => []
  | i, s :: rest => scoreOne s i total :: scoreFrom total (i + 1) rest

/-- `scoreSentences`: map each sentence to its scored record. -/
def scoreSentences (sentences : List Str) : List ScoredSentence :=
  scoreFrom sentences.length 0 sentences

/-- Stable insertion for the descending-by-score sort: a later element is
placed after all earlier elements with a score at least as large, which is
exactly the order of JS's stable `sort((a, b) => b.score - a.score)`. -/
def insertByScoreDesc (x : ScoredSentence) :
    List ScoredSentence → List ScoredSentence
  | [] => [x]
  | y :: ys => if x.score ≤ y.score then y :: insertByScoreDesc x ys
               else x :: y :: ys

/-- Stable sort descending by score (models JS stable `Array.sort`). -/
def sortByScoreDesc (l : List ScoredSentence) : List ScoredSentence :=
  l.foldl (fun acc x => insertByScoreDesc x acc) []

/-- Stable insertion for the ascending-by-index sort. -/
def insertByIndex (x : ScoredSentence) :
    List ScoredSentence → List ScoredSentence
  | [] => [x]
  | y :: ys => if y.index ≤ x.index then y :: insertByIndex x ys
               else x :: y :: ys

/-- Stable sort ascending by original index (models JS stable
`sort((a, b) => a.index - b.index)`). -/
def sortByIndex (l : List ScoredSentence) : List ScoredSentence :=
  l.foldl (fun acc x => insertByIndex x acc) []

/-- `Math.min(5, Math.ceil(totalSentences * 0.3))`: the ceiling of
`3 * total / 10`, written with exact natural arithmetic. -/
def maxSummarySentences (total : ℕ) : ℕ :=
  min 5 ((3 * total + 9) / 10)

/-- `selectTopSentences`: sort descending by score (stable), take the first
`min(5, ceil(total * 0.3))`, re-sort those by original index. -/
def selectTopSentences (scoredSentences : List ScoredSentence)
    (totalSentences : ℕ) : List ScoredSentence :=
  sortByIndex ((sortByScoreDesc scoredSentences).take
    (maxSummarySentences totalSentences))

/-- Bullet-marker characters of the first key-point regex. -/
def isBulletChar (c : Char) : Bool := charIn (s2l "•·-*") c

/-- Characters allowed inside the first pattern's capture: `[^•·\-\*\n]`. -/
def bulletCapAllowed (c : Char) : Bool := !(isBulletChar c || c == '\n')

/-- One attempt of the bounded capture with `k` whitespace characters
consumed by `\s*`: greedy capture of up to 150 allowed characters, a match
when at least 10. -/
def capAt (allowed : Char → Bool) (s : Str) (k : ℕ) : Option (Str × Str) :=
  let t := s.drop k
  let run := (t.takeWhile allowed).take 150
  if 10 ≤ run.length then some (run, t.drop run.length) else none

/-- Backtracking of `\s*` before a `{10,150}`-bounded capture: try the
longest whitespace prefix first (`k` characters consumed), as the greedy
regex engine does, and accept the first split whose capture reaches 10. -/
def capTry (allowed : Char → Bool) (s : Str) : ℕ → Option (Str × Str)
  | 0 => capAt allowed s 0
  | k + 1 => (capAt allowed s (k + 1)).orElse (fun _ => capTry allowed s k)

/-- Match `\s*(CAP{10,150})` at the start of `s`, returning the capture and
the remainder after the whole match. -/
def capMatch (allowed : Char → Bool) (s : Str) : Option (Str × Str) :=
  capTry allowed s (s.takeWhile isJsWs).length

/-- Scan for matches of `/[•·\-\*]\s*([^•·\-\*\n]{10,150})/g`; `fuel`
bounds the recursion by the input length. -/
def scanBullets1 : ℕ → Str → List Str
  | 0, _ => []
  | _, [] => []
  | fuel + 1, c :: rest =>
    if isBulletChar c then
      match capMatch bulletCapAllowed rest with
      | some (cap, r) => cap :: scanBullets1 fuel r
      | none => scanBullets1 fuel rest
    else scanBullets1 fuel rest

/-- Characters allowed inside the second pattern's capture: `[^\d\n]`. -/
def numCapAllowed (c : Char) : Bool := !(decide ('0' ≤ c ∧ c ≤ '9') || c == '\n')

/-- Scan for matches of `/\d+[\.\)]\s*([^\d\n]{10,150})/g`. -/
def scanBullets2 : ℕ → Str → List Str
  | 0, _ => []
  | _, [] => []
  | fuel + 1, c :: rest =>
    if decide ('0' ≤ c ∧ c ≤ '9') then
      let digits := (c :: rest).takeWhile (fun d => decide ('0' ≤ d ∧ d ≤ '9'))
      let after := (c :: rest).drop digits.length
      match after with
      | d :: after' =>
        if d == '.' || d == ')' then
          match capMatch numCapAllowed after' with
          | some (cap, r) => cap :: scanBullets2 fuel r
          | none => scanBullets2 fuel rest
        else scanBullets2 fuel rest
      | [] => scanBullets2 fuel rest
    else scanBullets2 fuel rest

/-- `extractBulletPoints`: collect both patterns' captures in order, trim
each, and keep those of length at least 10. -/
def extractBulletPoints (content : Str) : List Str :=
  ((scanBullets1 content.length content ++ scanBullets2 content.length content).map
    trimS).filter (fun p => decide (10 ≤ p.length))

/-- The key-indicator lexicon of `findKeywordSentences`. -/
def keyIndicators : List Str :=
  [s2l "key", s2l "important", s2l "main", s2l "significant", s2l "essential",
   s2l "crucial", s2l "primary", s2l "major", s2l "fundamental", s2l "critical"]

/-- `findKeywordSentences`: sentences containing a key indicator, first 3. -/
def findKeywordSentences (sentences : List Str) : List Str :=
  (sentences.filter (fun sentence =>
    keyIndicators.any (fun ind => hasSubstr ind (toLowerAscii sentence)))).take 3

/-- `extractKeyPoints`: bullet points, then keyword sentences when fewer
than 3 candidates, then the first 3 sentences when still none; filter to
lengths strictly between 10 and 200 and truncate to 5. -/
def extractKeyPoints (content : Str) (sentences : List Str) : List Str :=
  let keyPoints := extractBulletPoints content
  let keyPoints := if keyPoints.length < 3
    then keyPoints ++ findKeywordSentences sentences else keyPoints
  let keyPoints := if keyPoints.length = 0
    then keyPoints ++ sentences.take 3 else keyPoints
  (keyPoints.filter (fun p => decide (10 < p.length ∧ p.length < 200))).take 5

/-- `countWords` of the summarizer and the scraper: trim, split on
whitespace, count the nonempty parts. -/
def countWordsTF (text : Str) : ℕ :=
  ((splitRuns isJsWs (trimS text)).filter (fun w => decide (0 < w.length))).length

/-- `generateExtractiveSummary`.  The source throws for empty or
whitespace-only content; the embedding returns `none` there. -/
def generateExtractiveSummary (content : Str) : Option SummaryResult :=
  if (trimS content).isEmpty then none
  else
    let cleanContent := preprocessContent content
    let sentences := extractSentences cleanContent
    let scoredSentences := scoreSentences sentences
    let selectedSentences := selectTopSentences scoredSentences sentences.length
    let summary := joinSep (s2l ". ") (selectedSentences.map (·.sentence)) ++ s2l "."
    let keyPoints := extractKeyPoints content sentences
    some
      { summary := if summary.isEmpty
          then s2l "Unable to generate summary from provided content." else summary
        keyPoints := keyPoints
        wordCount := countWordsTF cleanContent
        originalLength := cleanContent.length }

/- ## Urdu text utilities (urdu-utils, src/unnamed/part_011) -/

/-- The five Unicode block ranges of `URDU_UNICODE_RANGES`. -/
def urduRanges : List (ℕ × ℕ) :=
  [(0x0600, 0x06FF), (0x0750, 0x077F), (0x08A0, 0x08FF),
   (0xFB50, 0xFDFF), (0xFE70, 0xFEFF)]

/-- A character code inside one of the Urdu/Arabic ranges. -/
def isUrduChar (c : Char) : Bool :=
  urduRanges.any (fun r => decide (r.1 ≤ c.toNat ∧ c.toNat ≤ r.2))

/-- `containsUrduScript`: some character of the text lies in some range. -/
def containsUrduScript (text : Str) : Bool := text.any isUrduChar

/-- Number of characters in the Urdu ranges (the numerator of
`calculateUrduScriptPercentage`). -/
def urduCharCount (text : Str) : ℕ := (text.filter isUrduChar).length

/-- `text.replace(/\s/g, '').length`: the denominator of
`calculateUrduScriptPercentage`. -/
def nonWsCount (text : Str) : ℕ := (text.filter (fun c => !isJsWs c)).length

/-- `URDU_DIACRITICS` class: `[ً-ٰٟۖ-ۭ]`. -/
def isUrduDiacritic (c : Char) : Bool :=
  let n := c.toNat
  decide ((0x64B ≤ n ∧ n ≤ 0x65F) ∨ n = 0x670 ∨ (0x6D6 ≤ n ∧ n ≤ 0x6ED))

/-- The quote characters of the normalizer's surrounding-quote class. -/
def isQuoteChar (c : Char) : Bool := charIn (s2l "\"“”") c

/-- Leading half of `replace(/^\s*["""]|["""]\s*$/g, '')`. -/
def stripLeadQuote (l : Str) : Str :=
  match l.dropWhile isJsWs with
  | c :: r => if isQuoteChar c then r else l
  | [] => l

/-- Trailing half of `replace(/^\s*["""]|["""]\s*$/g, '')`. -/
def stripTrailQuote (l : Str) : Str :=
  match l.reverse.dropWhile isJsWs with
  | c :: r => if isQuoteChar c then r.reverse else l
  | [] => l

/-- `replace(/^\s*["""]|["""]\s*$/g, '')`: each anchored alternative can
remove one surrounding quote (with adjacent outer whitespace). -/
def stripQuotes (l : Str) : Str := stripTrailQuote (stripLeadQuote l)

/-- The boilerplate alternatives of the normalizer's anchored prefix regex,
in the alternation's order. -/
def boilerplateHeads : List Str :=
  [s2l "اردو ترجمہ:", s2l "ترجمہ:", s2l "یہ اردو ترجمہ ہے:",
   s2l "Translation:", s2l "Urdu:"]

/-- One anchored, case-insensitive removal of the first boilerplate
alternative that matches at the start of the text. -/
def stripBoilerplate (l : Str) : Str :=
  match boilerplateHeads.find?
      (fun p => startsWithL (toLowerAscii p) (toLowerAscii l)) with
  | some p => l.drop p.length
  | none => l

/-- `replace(/\r\n/g, '\n')`. -/
def fixCRLF : Str → Str
  | [] => []
  | '\r' :: '\n' :: r => '\n' :: fixCRLF r
  | c :: r => c :: fixCRLF r

/-- Worker for `replace(/\n+/g, '\n')`. -/
def cnGo : Bool → Str → Str
  | _, [] => []
  | inNl, c :: r =>
    if c == '\n' then (if inNl then cnGo true r else '\n' :: cnGo true r)
    else c :: cnGo false r

/-- `normalizeUrduText`: trim, collapse whitespace, strip surrounding
quotes and boilerplate heads, normalize line endings, collapse newline
runs, trim. -/
def normalizeUrduText (text : Str) : Str :=
  if text.isEmpty then []
  else trimS (cnGo false (fixCRLF (stripBoilerplate (stripQuotes
    (collapseWs (trimS text))))))

/-- `extractUrduText`: keep the trimmed lines that contain Urdu script with
a script percentage above 30 (embedded as `100 * urdu > 30 * nonWs`),
normalized and joined by newlines; when no line qualifies, normalize the
whole text. -/
def extractUrduText (text : Str) : Str :=
  if text.isEmpty then []
  else
    let lines := splitRuns (fun c => c == '\n') text
    let urduLines := ((lines.map trimS).filter (fun tl =>
      !tl.isEmpty && containsUrduScript tl &&
        decide (30 * nonWsCount tl < 100 * urduCharCount tl))).map normalizeUrduText
    if urduLines.isEmpty then normalizeUrduText text
    else joinSep (s2l "\n") urduLines

/-- `UrduQualityMetrics`.  Scores are exact: `qualityScore` is the source's
score multiplied by 100, and `scriptPercentage` is the exact fraction
`100 * urduChars / nonWsChars`, carried as its numerator and denominator so
that every comparison of the source can be made by cross-multiplication. -/
structure UrduQualityMetrics where
  hasUrduScript : Bool
  urduChars : ℕ
  nonWsChars : ℕ
  diacriticsCount : ℕ
  wordCount : ℕ
  sentenceCount : ℕ
  qualityScore : ℤ
  issues : List Str
  suggestions : List Str
deriving DecidableEq, Repr

/-- Sentence terminators of the Urdu analyzer: the class `[۔؟!.!?]`. -/
def isUrduLatinTerm (c : Char) : Bool := charIn (s2l "۔؟!.?") c

/-- Decimal digits of a natural number. -/
def natToStr (n : ℕ) : Str := Nat.toDigits 10 n

/-- `scriptPercentage.toFixed(1)` for the percentage `100 * u / t`: the
value in tenths of a percent, rounded, rendered with one decimal. -/
def pctToFixed1 (u t : ℕ) : Str :=
  if t = 0 then s2l "0.0"
  else
    let s := (2000 * u + t) / (2 * t)
    natToStr (s / 10) ++ '.' :: natToStr (s % 10)

/-- Number of matches of `/[a-zA-Z]{3,}/g`: maximal ASCII-letter runs of
length at least 3. -/
def englishWordCount (text : Str) : ℕ :=
  ((splitRuns (fun c => !decide (('a' ≤ c ∧ c ≤ 'z') ∨ ('A' ≤ c ∧ c ≤ 'Z')))
    text).filter (fun f => decide (3 ≤ f.length))).length

/-- `analyzeUrduTextQuality`.  Percentage and average-length comparisons
are embedded cross-multiplied; score deductions are in hundredths. -/
def analyzeUrduTextQuality (text : Str) : UrduQualityMetrics :=
  let cleanText := normalizeUrduText text
  let hasUrdu := containsUrduScript cleanText
  let urdu := urduCharCount cleanText
  let nonWs := nonWsCount cleanText
  let diacriticsCount := (cleanText.filter isUrduDiacritic).length
  let wordCount :=
    ((splitRuns isJsWs cleanText).filter (fun w => decide (0 < w.length))).length
  let sentenceCount := ((splitRuns isUrduLatinTerm cleanText).filter
    (fun s => decide (5 < (trimS s).length))).length
  let lowPct := decide (100 * urdu < 50 * nonWs)
  let manyEnglish :=
    decide (0 < englishWordCount cleanText ∧
      3 * wordCount < 10 * englishWordCount cleanText)
  let qualityScore : ℤ := 100
    - (if !hasUrdu then 50 else if lowPct then 20 else 0)
    - (if wordCount < 3 then 30 else if 1000 < wordCount then 10 else 0)
    - (if sentenceCount = 0 then 20
       else if 25 * sentenceCount < wordCount then 10 else 0)
    - (if manyEnglish then 20 else 0)
  { hasUrduScript := hasUrdu
    urduChars := urdu
    nonWsChars := nonWs
    diacriticsCount := diacriticsCount
    wordCount := wordCount
    sentenceCount := sentenceCount
    qualityScore := max 0 qualityScore
    issues :=
      (if !hasUrdu then [s2l "No Urdu script detected"]
       else if lowPct then
         [s2l "Low Urdu script percentage (" ++ pctToFixed1 urdu nonWs ++ s2l "%)"]
       else [])
      ++ (if wordCount < 3 then [s2l "Text too short"]
          else if 1000 < wordCount then [s2l "Text might be too long"] else [])
      ++ (if sentenceCount = 0 then [s2l "No proper sentences detected"]
          else if 25 * sentenceCount < wordCount then [s2l "Sentences too long"]
          else [])
      ++ (if manyEnglish then [s2l "Too many English words detected"] else [])
    suggestions :=
      (if !hasUrdu then [s2l "Ensure text contains Urdu characters"]
       else if lowPct then [s2l "Remove non-Urdu text or improve translation"]
       else [])
      ++ (if wordCount < 3 then []
          else if 1000 < wordCount then
            [s2l "Consider breaking into smaller segments"] else [])
      ++ (if sentenceCount = 0 then [s2l "Add proper punctuation (۔ ؟ !)"]
          else if 25 * sentenceCount < wordCount then
            [s2l "Break long sentences for better readability"] else [])
      ++ (if manyEnglish then
            [s2l "Translate English terms to Urdu equivalents"] else []) }

/-- `UrduValidationResult`; `confidence` is the source's value × 100. -/
structure UrduValidationResult where
  isValid : Bool
  confidence : ℤ
  issues : List Str
  suggestions : List Str
  metrics : UrduQualityMetrics
deriving DecidableEq, Repr

/-- `validateUrduTranslation` with explicit minimum quality score
(in hundredths; the source's default parameter is 0.5). -/
def validateUrduTranslation (originalText translatedText : Str)
    (minQualityScore : ℤ) : UrduValidationResult :=
  let metrics := analyzeUrduTextQuality translatedText
  let originalWords :=
    ((splitRuns isJsWs originalText).filter (fun w => decide (0 < w.length))).length
  let translatedWords := metrics.wordCount
  let lenShort := decide (10 * translatedWords < 3 * originalWords)
  let lenLong := decide (3 * originalWords < translatedWords)
  let confidence : ℤ := metrics.qualityScore
    + (if 80 * metrics.nonWsChars < 100 * metrics.urduChars then 10 else 0)
    + (if 0 < metrics.sentenceCount ∧
         metrics.wordCount < 20 * metrics.sentenceCount then 10 else 0)
    + (if 0 < metrics.diacriticsCount then 5 else 0)
  { isValid := decide (minQualityScore ≤ metrics.qualityScore) && metrics.hasUrduScript
    confidence := min 100 confidence
    issues := metrics.issues ++
      (if lenShort then [s2l "Translation significantly shorter than original"]
       else if lenLong then [s2l "Translation much longer than original"] else [])
    suggestions := metrics.suggestions ++
      (if lenShort then [s2l "Ensure complete translation of all content"]
       else if lenLong then [s2l "Check for repetitive or redundant content"]
       else [])
    metrics := metrics }

/-- `validateUrduTranslation` at its default minimum quality score 0.5. -/
def validateUrduTranslationD (originalText translatedText : Str) :
    UrduValidationResult :=
  validateUrduTranslation originalText translatedText 50

/-- The class `[آ-ی]` of the post-processor's letter-joining regex. -/
def isUrduLetter (c : Char) : Bool := decide (0x622 ≤ c.toNat ∧ c.toNat ≤ 0x6CC)

/-- Match `\s+([آ-ی])` at the start of the list. -/
def wsThenLetter (l : Str) : Option (Char × Str) :=
  let w := l.takeWhile isJsWs
  if w.isEmpty then none
  else match l.drop w.length with
    | c :: r => if isUrduLetter c then some (c, r) else none
    | [] => none

/-- Scan of `replace(/([آ-ی])\s+([آ-ی])/g, '$1$2')`: matches do not
overlap, so scanning resumes after the second letter of a match.  `fuel`
bounds the recursion by the input length. -/
def julGo : ℕ → Str → Str
  | 0, l => l
  | _ + 1, [] => []
  | fuel + 1, c :: rest =>
    if isUrduLetter c then
      match wsThenLetter rest with
      | some (c2, r) => c :: c2 :: julGo fuel r
      | none => c :: julGo fuel rest
    else c :: julGo fuel rest

/-- `replace(/([آ-ی])\s+([آ-ی])/g, '$1$2')`. -/
def joinUrduLetters (l : Str) : Str := julGo l.length l

/-- The punctuation class `[۔؟!،؛]`. -/
def isUrduPunct5 (c : Char) : Bool := charIn (s2l "۔؟!،؛") c

/-- Match `\s*([۔؟!،؛])\s*` at the start of the list. -/
def wsPunct (l : Str) : Option (Char × Str) :=
  match l.dropWhile isJsWs with
  | c :: r => if isUrduPunct5 c then some (c, r.dropWhile isJsWs) else none
  | [] => none

/-- Scan of `replace(/\s*([۔؟!،؛])\s*/g, '$1 ')`. -/
def fpsGo : ℕ → Str → Str
  | 0, l => l
  | _ + 1, [] => []
  | fuel + 1, c :: rest =>
    match wsPunct (c :: rest) with
    | some (p, r) => p :: ' ' :: fpsGo fuel r
    | none => c :: fpsGo fuel rest

/-- Sentence-ending marks `[۔؟!]`. -/
def isSentEnd3 (c : Char) : Bool := charIn (s2l "۔؟!") c

/-- Scan of `replace(/([۔؟!])\s*([^\s])/g, '$1 $2')`. -/
def esaGo : ℕ → Str → Str
  | 0, l => l
  | _ + 1, [] => []
  | fuel + 1, c :: rest =>
    if isSentEnd3 c then
      match rest.drop (rest.takeWhile isJsWs).length with
      | d :: r => c :: ' ' :: d :: esaGo fuel r
      | [] => c :: esaGo fuel rest
    else c :: esaGo fuel rest

/-- Does the text end with a sentence-ending mark (`/[۔؟!]$/`)? -/
def endsWithSentEnd (l : Str) : Bool :=
  match l.getLast? with
  | some c => isSentEnd3 c
  | none => false

/-- `postProcessUrduTranslation`: normalize, join spaced Urdu letters, fix
punctuation spacing, ensure a space after sentence endings, collapse
whitespace, trim, and append `۔` when no sentence-ending mark closes the
text. -/
def postProcessUrduTranslation (text : Str) : Str :=
  if text.isEmpty then []
  else
    let processed := normalizeUrduText text
    let processed := joinUrduLetters processed
    let processed := fpsGo processed.length processed
    let processed := esaGo processed.length processed
    let processed := trimS (collapseWs processed)
    if !processed.isEmpty && !endsWithSentEnd processed
    then processed ++ ['۔'] else processed

/- ## Dictionary fallback translator (src/unnamed/part_010) -/

/-- `ENGLISH_URDU_DICTIONARY` (no key is repeated in the source object). -/
def englishUrduDict : List (Str × Str) :=
  [
   (s2l "the", s2l "یہ"), (s2l "and", s2l "اور"),
   (s2l "is", s2l "ہے"), (s2l "in", s2l "میں"),
   (s2l "to", s2l "کو"), (s2l "of", s2l "کا"),
   (s2l "a", s2l "ایک"), (s2l "that", s2l "یہ"),
   (s2l "it", s2l "یہ"), (s2l "with", s2l "کے ساتھ"),
   (s2l "for", s2l "کے لیے"), (s2l "as", s2l "جیسے"),
   (s2l "was", s2l "تھا"), (s2l "on", s2l "پر"),
   (s2l "are", s2l "ہیں"), (s2l "you", s2l "آپ"),
   (s2l "this", s2l "یہ"), (s2l "be", s2l "ہونا"),
   (s2l "at", s2l "پر"), (s2l "by", s2l "کے ذریعے"),
   (s2l "not", s2l "نہیں"), (s2l "or", s2l "یا"),
   (s2l "have", s2l "ہے"), (s2l "from", s2l "سے"),
   (s2l "they", s2l "وہ"), (s2l "we", s2l "ہم"),
   (s2l "but", s2l "لیکن"), (s2l "can", s2l "کر سکتے ہیں"),
   (s2l "out", s2l "باہر"), (s2l "other", s2l "دوسرے"),
   (s2l "were", s2l "تھے"), (s2l "all", s2l "تمام"),
   (s2l "there", s2l "وہاں"), (s2l "when", s2l "جب"),
   (s2l "up", s2l "اوپر"), (s2l "use", s2l "استعمال"),
   (s2l "your", s2l "آپ کا"), (s2l "how", s2l "کیسے"),
   (s2l "our", s2l "ہمارا"), (s2l "if", s2l "اگر"),
   (s2l "no", s2l "نہیں"), (s2l "had", s2l "تھا"),
   (s2l "what", s2l "کیا"), (s2l "so", s2l "تو"),
   (s2l "about", s2l "کے بارے میں"), (s2l "time", s2l "وقت"),
   (s2l "very", s2l "بہت"), (s2l "would", s2l "گا"),
   (s2l "has", s2l "ہے"), (s2l "more", s2l "زیادہ"),
   (s2l "many", s2l "بہت سے"), (s2l "some", s2l "کچھ"),
   (s2l "first", s2l "پہلا"), (s2l "new", s2l "نیا"),
   (s2l "good", s2l "اچھا"), (s2l "great", s2l "عظیم"),
   (s2l "best", s2l "بہترین"), (s2l "old", s2l "پرانا"),
   (s2l "small", s2l "چھوٹا"), (s2l "large", s2l "بڑا"),
   (s2l "long", s2l "لمبا"), (s2l "short", s2l "چھوٹا"),
   (s2l "high", s2l "اونچا"), (s2l "low", s2l "نیچا"),
   (s2l "big", s2l "بڑا"), (s2l "go", s2l "جانا"),
   (s2l "see", s2l "دیکھنا"), (s2l "make", s2l "بنانا"),
   (s2l "get", s2l "لینا"), (s2l "come", s2l "آنا"),
   (s2l "know", s2l "جاننا"), (s2l "work", s2l "کام"),
   (s2l "give", s2l "دینا"), (s2l "take", s2l "لینا"),
   (s2l "find", s2l "تلاش کرنا"), (s2l "think", s2l "سوچنا"),
   (s2l "say", s2l "کہنا"), (s2l "tell", s2l "بتانا"),
   (s2l "ask", s2l "پوچھنا"), (s2l "feel", s2l "محسوس کرنا"),
   (s2l "try", s2l "کوشش کرنا"), (s2l "help", s2l "مدد"),
   (s2l "show", s2l "دکھانا"), (s2l "play", s2l "کھیلنا"),
   (s2l "run", s2l "دوڑنا"), (s2l "people", s2l "لوگ"),
   (s2l "person", s2l "شخص"), (s2l "man", s2l "آدمی"),
   (s2l "woman", s2l "عورت"), (s2l "child", s2l "بچہ"),
   (s2l "family", s2l "خاندان"), (s2l "friend", s2l "دوست"),
   (s2l "teacher", s2l "استاد"), (s2l "student", s2l "طالب علم"),
   (s2l "doctor", s2l "ڈاکٹر"), (s2l "engineer", s2l "انجینئر"),
   (s2l "world", s2l "دنیا"), (s2l "country", s2l "ملک"),
   (s2l "city", s2l "شہر"), (s2l "home", s2l "گھر"),
   (s2l "school", s2l "اسکول"), (s2l "office", s2l "دفتر"),
   (s2l "hospital", s2l "ہسپتال"), (s2l "market", s2l "بازار"),
   (s2l "place", s2l "جگہ"), (s2l "area", s2l "علاقہ"),
   (s2l "technology", s2l "ٹیکنالوجی"), (s2l "business", s2l "کاروبار"),
   (s2l "company", s2l "کمپنی"), (s2l "system", s2l "نظام"),
   (s2l "development", s2l "ترقی"), (s2l "software", s2l "سافٹ ویئر"),
   (s2l "computer", s2l "کمپیوٹر"), (s2l "internet", s2l "انٹرنیٹ"),
   (s2l "website", s2l "ویب سائٹ"), (s2l "data", s2l "ڈیٹا"),
   (s2l "information", s2l "معلومات"), (s2l "service", s2l "خدمت"),
   (s2l "management", s2l "انتظام"), (s2l "project", s2l "منصوبہ"),
   (s2l "application", s2l "اپلیکیشن"), (s2l "digital", s2l "ڈیجیٹل"),
   (s2l "online", s2l "آن لائن"), (s2l "mobile", s2l "موبائل"),
   (s2l "platform", s2l "پلیٹ فارم"), (s2l "network", s2l "نیٹ ورک"),
   (s2l "security", s2l "سیکیورٹی"), (s2l "science", s2l "سائنس"),
   (s2l "research", s2l "تحقیق"), (s2l "study", s2l "مطالعہ"),
   (s2l "analysis", s2l "تجزیہ"), (s2l "method", s2l "طریقہ"),
   (s2l "process", s2l "عمل"), (s2l "result", s2l "نتیجہ"),
   (s2l "solution", s2l "حل"), (s2l "problem", s2l "مسئلہ"),
   (s2l "innovation", s2l "جدت"), (s2l "future", s2l "مستقبل"),
   (s2l "change", s2l "تبدیلی"), (s2l "growth", s2l "ترقی"),
   (s2l "progress", s2l "پیش قدمی"), (s2l "success", s2l "کامیابی"),
   (s2l "artificial", s2l "مصنوعی"), (s2l "intelligence", s2l "ذہانت"),
   (s2l "machine", s2l "مشین"), (s2l "learning", s2l "سیکھنا"),
   (s2l "algorithm", s2l "الگورتھم"), (s2l "programming", s2l "پروگرامنگ"),
   (s2l "code", s2l "کوڈ"), (s2l "database", s2l "ڈیٹابیس"),
   (s2l "design", s2l "ڈیزائن"), (s2l "content", s2l "مواد"),
   (s2l "media", s2l "میڈیا"), (s2l "communication", s2l "رابطہ"),
   (s2l "experience", s2l "تجربہ"), (s2l "performance", s2l "کارکردگی"),
   (s2l "quality", s2l "معیار"), (s2l "support", s2l "سپورٹ"),
   (s2l "product", s2l "پروڈکٹ"), (s2l "customer", s2l "کسٹمر"),
   (s2l "education", s2l "تعلیم"), (s2l "knowledge", s2l "علم"),
   (s2l "skill", s2l "مہارت"), (s2l "training", s2l "تربیت"),
   (s2l "course", s2l "کورس"), (s2l "lesson", s2l "سبق"),
   (s2l "book", s2l "کتاب"), (s2l "chapter", s2l "باب"),
   (s2l "page", s2l "صفحہ"), (s2l "health", s2l "صحت"),
   (s2l "medical", s2l "طبی"), (s2l "care", s2l "دیکھ بھال"),
   (s2l "social", s2l "سماجی"), (s2l "community", s2l "کمیونٹی"),
   (s2l "society", s2l "معاشرہ"), (s2l "culture", s2l "ثقافت"),
   (s2l "tradition", s2l "روایت"), (s2l "modern", s2l "جدید"),
   (s2l "economic", s2l "اقتصادی"), (s2l "financial", s2l "مالی"),
   (s2l "money", s2l "پیسہ"), (s2l "cost", s2l "قیمت"),
   (s2l "price", s2l "قیمت"), (s2l "value", s2l "قدر"),
   (s2l "government", s2l "حکومت"), (s2l "policy", s2l "پالیسی"),
   (s2l "law", s2l "قانون"), (s2l "organization", s2l "تنظیم"),
   (s2l "institution", s2l "ادارہ"), (s2l "blog", s2l "بلاگ"),
   (s2l "article", s2l "مضمون"), (s2l "story", s2l "کہانی"),
   (s2l "news", s2l "خبر"), (s2l "report", s2l "رپورٹ"),
   (s2l "summary", s2l "خلاصہ"), (s2l "description", s2l "تفصیل"),
   (s2l "example", s2l "مثال"), (s2l "detail", s2l "تفصیل"),
   (s2l "point", s2l "نکتہ"), (s2l "idea", s2l "خیال"),
   (s2l "concept", s2l "تصور"), (s2l "important", s2l "اہم"),
   (s2l "main", s2l "بنیادی"), (s2l "key", s2l "کلیدی"),
   (s2l "major", s2l "اہم"), (s2l "primary", s2l "بنیادی"),
   (s2l "basic", s2l "بنیادی"), (s2l "simple", s2l "آسان"),
   (s2l "complex", s2l "پیچیدہ"), (s2l "difficult", s2l "مشکل"),
   (s2l "easy", s2l "آسان"), (s2l "hard", s2l "مشکل"),
   (s2l "possible", s2l "ممکن"), (s2l "available", s2l "دستیاب"),
   (s2l "necessary", s2l "ضروری"), (s2l "useful", s2l "مفید")]

/-- First value bound to a key in an association list (JS object lookup;
the source objects have no repeated keys). -/
def lookupDict (d : List (Str × Str)) (k : Str) : Option Str :=
  (d.find? (fun e => e.1 == k)).map (·.2)

/-- `preprocessTextForTranslation`: lowercase, split on whitespace, keep
nonempty words. -/
def preprocessTextForTranslation (text : Str) : List Str :=
  (splitRuns isJsWs (toLowerAscii text)).filter (fun w => decide (0 < w.length))

/-- The punctuation class `[.,!?;:()[\]{}'"]` stripped before lookup. -/
def isLookupPunct (c : Char) : Bool := charIn (s2l ".,!?;:()[]{}'\"") c

/-- Does `w` end with `suf`? -/
def endsWithL (suf w : Str) : Bool := startsWithL suf.reverse w.reverse

/-- The suffixes stripped by `generateWordVariations`, in order. -/
def suffixList : List Str :=
  [s2l "ing", s2l "ed", s2l "er", s2l "est", s2l "s", s2l "ly"]

/-- `generateWordVariations`: the word itself, suffix-stripped variants
(when the word is long enough), and the `ies → y` plural rule. -/
def generateWordVariations (word : Str) : List Str :=
  [word]
  ++ suffixList.filterMap (fun suf =>
      if endsWithL suf word && decide (suf.length + 2 < word.length)
      then some (word.take (word.length - suf.length)) else none)
  ++ (if endsWithL (s2l "ies") word && decide (4 < word.length)
      then [word.take (word.length - 3) ++ ['y']] else [])

/-- `translateWord`: strip punctuation, try an exact dictionary hit, then
the variations in order, else keep the original word. -/
def translateWord (word : Str) : Str :=
  let cleanWord := word.filter (fun c => !isLookupPunct c)
  match lookupDict englishUrduDict cleanWord with
  | some t => t
  | none =>
    match (generateWordVariations cleanWord).findSome?
        (lookupDict englishUrduDict) with
    | some t => t
    | none => word

/-- `postprocessTranslation`: collapse whitespace, trim, and fix spacing
after sentence-ending marks (`/([۔؟!])\s*([^\s])/g`). -/
def postprocessTranslation (translation : Str) : Str :=
  let t := trimS (collapseWs translation)
  esaGo t.length t

/-- `translateUsingDictionary`: empty for empty/whitespace-only input, else
word-by-word dictionary substitution joined by spaces and post-processed. -/
def translateUsingDictionary (text : Str) : Str :=
  if (trimS text).isEmpty then []
  else postprocessTranslation
    (joinSep [' '] ((preprocessTextForTranslation text).map translateWord))

/-- `translateToUrdu` of part_010: throws (here `Except.error`) for
empty/whitespace-only input; otherwise the AI result when the hosted call
succeeds (modelled as a parameter, the call being external), else the
dictionary fallback. -/
def translateToUrdu (aiResult : Option Str) (text : Str) : Except Str Str :=
  if (trimS text).isEmpty then
    Except.error (s2l "Text is required for translation")
  else Except.ok
    (match aiResult with
     | some r => r
     | none => translateUsingDictionary text)

/- ## Cohere service (src/lib/cohere.ts) -/

/-- The `basicDict` of `generateFallbackTranslation`. -/
def basicDict : List (Str × Str) :=
  [
   (s2l "the", s2l "یہ"), (s2l "and", s2l "اور"), (s2l "is", s2l "ہے"),
   (s2l "in", s2l "میں"), (s2l "to", s2l "کو"), (s2l "of", s2l "کا"),
   (s2l "a", s2l "ایک"), (s2l "that", s2l "یہ"), (s2l "it", s2l "یہ"),
   (s2l "with", s2l "کے ساتھ"), (s2l "for", s2l "کے لیے"), (s2l "as", s2l "جیسے"),
   (s2l "was", s2l "تھا"), (s2l "on", s2l "پر"), (s2l "are", s2l "ہیں"),
   (s2l "you", s2l "آپ"), (s2l "this", s2l "یہ"), (s2l "be", s2l "ہونا"),
   (s2l "at", s2l "پر"), (s2l "by", s2l "کے ذریعے"), (s2l "not", s2l "نہیں"),
   (s2l "or", s2l "یا"), (s2l "have", s2l "ہے"), (s2l "from", s2l "سے"),
   (s2l "they", s2l "وہ"), (s2l "we", s2l "ہم"), (s2l "but", s2l "لیکن"),
   (s2l "blog", s2l "بلاگ"), (s2l "content", s2l "مواد"), (s2l "summary", s2l "خلاصہ"),
   (s2l "information", s2l "معلومات"), (s2l "technology", s2l "ٹیکنالوجی")]

/-- `generateFallbackTranslation`: lowercase, split on whitespace, replace
each punctuation-stripped word found in `basicDict`, join with spaces. -/
def generateFallbackTranslation (text : Str) : Str :=
  joinSep [' '] ((splitRuns isJsWs (toLowerAscii text)).map (fun word =>
    let cleanWord := word.filter (fun c => !isLookupPunct c)
    match lookupDict basicDict cleanWord with
    | some t => t
    | none => word))

/-- `cleanTranslationResponse`: extract the Urdu lines, fall back to the
normalized response when they hold no Urdu script, and to the raw response
when the result is empty. -/
def cleanTranslationResponse (response : Str) : Str :=
  let cleaned := extractUrduText response
  let cleaned := if !containsUrduScript cleaned
    then normalizeUrduText response else cleaned
  if cleaned.isEmpty then response else cleaned

/-- The string whose presence in `validation.issues` the translation
pipeline tests before replacing the candidate by the fallback. -/
def missingUrduIssue : Str := s2l "Translation does not contain Urdu script"

/-- The success path of `CohereService.translateToUrdu` (lines 112-129 of
src/lib/cohere.ts), given the source text and the hosted model's response:
clean the response, validate it, swap in the dictionary fallback when the
validation failed with the `missingUrduIssue` issue, and post-process. -/
def cohereTranslateToUrdu (text responseText : Str) : Str :=
  let translatedText := cleanTranslationResponse responseText
  let validation := validateUrduTranslationD text translatedText
  let translatedText :=
    if !validation.isValid && validation.issues.contains missingUrduIssue
    then generateFallbackTranslation text else translatedText
  postProcessUrduTranslation translatedText

/- ## Web scraper content validation (src/unnamed/part_009) -/

/-- `ContentQuality`; `score` is the source's score × 100, exact. -/
structure ContentQuality where
  score : ℤ
  issues : List Str
  suggestions : List Str
deriving DecidableEq, Repr

/-- The `navigationIndicators` list. -/
def navIndicators : List Str :=
  [s2l "menu", s2l "navigation", s2l "breadcrumb", s2l "sidebar",
   s2l "footer", s2l "header"]

/-- Some navigation indicator occurs in the lowercased content. -/
def hasNavText (content : Str) : Bool :=
  navIndicators.any (fun ind => hasSubstr ind (toLowerAscii content))

/-- `new Set(content.toLowerCase().split(/\s+/)).size`. -/
def uniqueWordCount (content : Str) : ℕ :=
  ((splitRuns isJsWs (toLowerAscii content)).dedup).length

/-- The repetition penalty's condition `uniqueWords / wordCount < 0.3`,
cross-multiplied.  When `wordCount = 0` the JS quotient is `NaN` or
`Infinity` and the comparison is false; so is `10 * unique < 0`. -/
def ratioPenalized (content : Str) : Bool :=
  decide (10 * uniqueWordCount content < 3 * countWordsTF content)

/-- Number of fragments (split on `[.!?]+`) whose trimmed length exceeds
10: the sentence-structure count of `validateContent`. -/
def sentStructCount (content : Str) : ℕ :=
  ((splitRuns isSumTerm content).filter
    (fun s => decide (10 < (trimS s).length))).length

/-- `WebScraper.validateContent` (src/unnamed/part_009 lines 119-168). -/
def validateContent (content : Str) (minLength : ℕ) : ContentQuality :=
  let wordCount := countWordsTF content
  let p1 := decide (content.length < minLength)
  let p2 := decide (wordCount < 50)
  let p3 := ratioPenalized content
  let p4 := hasNavText content
  let p5 := decide (sentStructCount content < 3)
  { score := max 0 ((100 : ℤ) - (if p1 then 30 else 0) - (if p2 then 20 else 0)
      - (if p3 then 20 else 0) - (if p4 then 10 else 0) - (if p5 then 20 else 0))
    issues :=
      (if p1 then [s2l "Content too short (" ++ natToStr content.length ++
        s2l " chars, minimum " ++ natToStr minLength ++ s2l ")"] else [])
      ++ (if p2 then [s2l "Very few words (" ++ natToStr wordCount ++ s2l ")"]
          else [])
      ++ (if p3 then [s2l "Content appears repetitive"] else [])
      ++ (if p4 then [s2l "Content may include navigation elements"] else [])
      ++ (if p5 then [s2l "Content lacks proper sentence structure"] else [])
    suggestions := if p3 then [s2l "Try a different content selector"] else [] }
/-- The strict priority order realized by the two-phase selection: higher
score first, ties broken in favour of the earlier original index. -/
def scoreLex (a b : ScoredSentence) : Prop :=
  b.score < a.score ∨ (a.score = b.score ∧ a.index < b.index)

instance scoreLexDecidable (a b : ScoredSentence) : Decidable (scoreLex a b) := by
  unfold scoreLex
  exact inferInstance

/- ## Helper lemmas -/

/-- The quality score of the Urdu analyzer never exceeds 1.0 (here 100). -/
theorem analyze_qualityScore_le (t : Str) :
    (analyzeUrduTextQuality t).qualityScore ≤ 100 := by
  unfold analyzeUrduTextQuality
  dsimp only
  split_ifs <;> omega

/- ## Claim theorems -/

/-- C7: for every input to the extractive summarizer, the returned
keyPoints list has length at most 5: `extractKeyPoints` truncates its
filtered candidate list with `slice(0, 5)`. -/
theorem claimC7_keyPoints_le_five (content : Str) (sentences : List Str) :
    (extractKeyPoints content sentences).length ≤ 5 := by
  unfold extractKeyPoints
  dsimp only
  simp only [List.length_take]
  omega

/-- C3 counterexample: contrary to the claim, no document with at most 5
sentences has a sentence receiving both position bonuses (a +5 position
score): the conditions `index < n * 0.2` and `index > n * 0.8` exclude
each other. -/
theorem claimC3_counterexample :
    ¬ ∃ p : Fin 6 × Fin 6, p.2.1 < p.1.1 ∧ positionScore p.2.1 p.1.1 = 5 := by
  decide

/-- C3 amended: the +3 first-20% bonus and the +2 last-20% bonus are
independent checks (both are evaluated, and `positionScore` is their sum),
but for a document of any size no sentence can receive both bonuses: the
position score is never +5. -/
theorem claimC3_no_double_position_bonus (index total : ℕ) :
    positionScore index total ≠ 5 := by
  unfold positionScore
  split_ifs <;> omega

/-- C4 counterexample: `postProcessUrduTranslation` is not idempotent.  On
the input of three Urdu letters separated by spaces, the space-removal
regex consumes non-overlapping matches, so one application joins only the
first pair, and a second application changes the result again. -/
theorem claimC4_counterexample :
    postProcessUrduTranslation (postProcessUrduTranslation (s2l "ا ب ج")) ≠
      postProcessUrduTranslation (s2l "ا ب ج") := by
  decide

/-- C4 amended: at the exhibited input the second application reaches a
fixed point of `postProcessUrduTranslation`: the third application agrees
with the second. -/
theorem claimC4_post_process_stabilizes :
    postProcessUrduTranslation (postProcessUrduTranslation
      (postProcessUrduTranslation (s2l "ا ب ج"))) =
    postProcessUrduTranslation (postProcessUrduTranslation (s2l "ا ب ج")) := by
  decide

/-- C2: the code_bug evaluation.  For the non-empty, non-whitespace input
"short text" no sentence qualifies for selection, and the summarizer
returns the summary ".": the join of zero sentences plus the appended
period, which is truthy in JS, so the synthesized placeholder sentence of
the source (`'Unable to generate summary from provided content.'`) is
unreachable. -/
theorem claimC2_summary_period_only :
    trimS (s2l "short text") ≠ [] ∧
    extractSentences (preprocessContent (s2l "short text")) = [] ∧
    (generateExtractiveSummary (s2l "short text")).map SummaryResult.summary =
      some (s2l ".") := by
  refine ⟨by decide, by decide, by decide⟩

/-- C9: the pure dictionary translator is total and returns the empty
string on empty or whitespace-only input, while the `translateToUrdu`
wrapper of part_010 rejects exactly that input with an error, whatever the
hosted call would have produced. -/
theorem claimC9_dictionary_total (t : Str) (h : (trimS t).isEmpty = true) :
    translateUsingDictionary t = [] ∧
    ∀ aiResult, translateToUrdu aiResult t =
      Except.error (s2l "Text is required for translation") := by
  constructor
  · unfold translateUsingDictionary
    simp [h]
  · intro aiResult
    unfold translateToUrdu
    simp [h]

/-- C9 witness: the guard fires at the concrete whitespace-only input. -/
theorem claimC9_dictionary_total_witness :
    translateUsingDictionary (s2l "   ") = [] ∧
    ∀ aiResult, translateToUrdu aiResult (s2l "   ") =
      Except.error (s2l "Text is required for translation") :=
  claimC9_dictionary_total (s2l "   ") (by decide)

/-- C10: for every pair of strings the confidence of
`validateUrduTranslation` lies between the candidate's quality score and
1.0 (here in hundredths): it starts at the quality score, receives only
non-negative bonuses, and is clamped above by 1.0. -/
theorem claimC10_confidence_bounds (src cand : Str) :
    (analyzeUrduTextQuality cand).qualityScore ≤
      (validateUrduTranslationD src cand).confidence ∧
    (validateUrduTranslationD src cand).confidence ≤ 100 := by
  unfold validateUrduTranslationD validateUrduTranslation
  dsimp only
  constructor
  · refine le_min (analyze_qualityScore_le cand) ?_
    split_ifs <;> omega
  · exact min_le_left _ _

/-- Characters surviving `dropWhile` come from the input. -/
theorem mem_of_mem_dropWhileL {p : Char → Bool} :
    ∀ {l : Str} {c : Char}, c ∈ l.dropWhile p → c ∈ l := by
  intro l
  induction l with
  | nil => simp
  | cons a t ih =>
    intro c h
    rw [List.dropWhile_cons] at h
    split at h
    · exact List.mem_cons_of_mem a (ih h)
    · exact h

/-- Characters of the trimmed string come from the input. -/
theorem mem_of_mem_trimS {l : Str} {c : Char} (h : c ∈ trimS l) : c ∈ l := by
  unfold trimS List.rdropWhile at h
  simp only [List.mem_reverse] at h
  exact mem_of_mem_dropWhileL (List.mem_reverse.mp (mem_of_mem_dropWhileL h))

/-- A text without Urdu-range characters stays so under trimming. -/
theorem noUrdu_trimS {l : Str} (h : ∀ c ∈ l, isUrduChar c = false) :
    ∀ c ∈ trimS l, isUrduChar c = false :=
  fun c hc => h c (mem_of_mem_trimS hc)

/-- Whitespace collapsing introduces only the space character. -/
theorem noUrdu_cwGo {l : Str} (h : ∀ c ∈ l, isUrduChar c = false) :
    ∀ b, ∀ c ∈ cwGo b l, isUrduChar c = false := by
  induction l with
  | nil => intro b c hc; simp [cwGo] at hc
  | cons a t ih =>
    intro b c hc
    have ha := h a (List.mem_cons_self a t)
    have ht : ∀ c ∈ t, isUrduChar c = false :=
      fun c hc => h c (List.mem_cons_of_mem a hc)
    unfold cwGo at hc
    split at hc
    · split at hc
      · exact ih ht _ c hc
      · rcases List.mem_cons.mp hc with rfl | hc
        · decide
        · exact ih ht _ c hc
    · rcases List.mem_cons.mp hc with rfl | hc
      · exact ha
      · exact ih ht _ c hc

/-- Quote stripping only removes characters. -/
theorem noUrdu_stripQuotes {l : Str} (h : ∀ c ∈ l, isUrduChar c = false) :
    ∀ c ∈ stripQuotes l, isUrduChar c = false := by
  have lead : ∀ c ∈ stripLeadQuote l, isUrduChar c = false := by
    intro c hc
    unfold stripLeadQuote at hc
    split at hc
    next heq =>
      split at hc
      · exact h c (mem_of_mem_dropWhileL (heq ▸ List.mem_cons_of_mem _ hc))
      · exact h c hc
    next => exact h c hc
  intro c hc
  unfold stripQuotes stripTrailQuote at hc
  split at hc
  next heq =>
    split at hc
    · have h2 : c ∈ (stripLeadQuote l).reverse.dropWhile isJsWs :=
        heq ▸ List.mem_cons_of_mem _ (List.mem_reverse.mp hc)
      exact lead c (List.mem_reverse.mp (mem_of_mem_dropWhileL h2))
    · exact lead c hc
  next => exact lead c hc

/-- Boilerplate-head stripping only drops a prefix. -/
theorem noUrdu_stripBoilerplate {l : Str} (h : ∀ c ∈ l, isUrduChar c = false) :
    ∀ c ∈ stripBoilerplate l, isUrduChar c = false := by
  intro c hc
  unfold stripBoilerplate at hc
  split at hc
  · exact h c (List.drop_subset _ l hc)
  · exact h c hc

/-- Line-ending normalization introduces only the newline character. -/
theorem noUrdu_fixCRLF :
    ∀ {l : Str}, (∀ c ∈ l, isUrduChar c = false) →
      ∀ c ∈ fixCRLF l, isUrduChar c = false := by
  intro l
  induction l using fixCRLF.induct with
  | case1 => simp [fixCRLF]
  | case2 r ih =>
    intro h c hc
    rw [show fixCRLF ('\r' :: '\n' :: r) = '\n' :: fixCRLF r from rfl] at hc
    rcases List.mem_cons.mp hc with rfl | hc
    · decide
    · exact ih (fun c hc => h c (List.mem_cons_of_mem _ (List.mem_cons_of_mem _ hc))) c hc
  | case3 a r hne ih =>
    intro h c hc
    rw [fixCRLF.eq_def] at hc
    split at hc
    next heq => exact absurd heq (by simp)
    next rr heq =>
      obtain ⟨rfl, rfl⟩ : a = '\r' ∧ r = '\n' :: rr := by
        exact ⟨by injection heq, by injection heq⟩
      exact absurd rfl (fun h2 => hne rr h2 rfl)
    next a2 r2 hne2 heq =>
      obtain ⟨rfl, rfl⟩ : a2 = a ∧ r2 = r := by
        constructor <;> [skip; skip] <;> injection heq.symm
      rcases List.mem_cons.mp hc with rfl | hc
      · exact h c (List.mem_cons_self _ _)
      · exact ih (fun c hc => h c (List.mem_cons_of_mem _ hc)) c hc

/-- Newline collapsing introduces only the newline character. -/
theorem noUrdu_cnGo {l : Str} (h : ∀ c ∈ l, isUrduChar c = false) :
    ∀ b, ∀ c ∈ cnGo b l, isUrduChar c = false := by
  induction l with
  | nil => intro b c hc; simp [cnGo] at hc
  | cons a t ih =>
    intro b c hc
    have ha := h a (List.mem_cons_self a t)
    have ht : ∀ c ∈ t, isUrduChar c = false :=
      fun c hc => h c (List.mem_cons_of_mem a hc)
    unfold cnGo at hc
    split at hc
    · split at hc
      · exact ih ht _ c hc
      · rcases List.mem_cons.mp hc with rfl | hc
        · decide
        · exact ih ht _ c hc
    · rcases List.mem_cons.mp hc with rfl | hc
      · exact ha
      · exact ih ht _ c hc

/-- A candidate with no Urdu-range character normalizes to a text with no
Urdu-range character. -/
theorem noUrdu_normalize {l : Str} (h : ∀ c ∈ l, isUrduChar c = false) :
    ∀ c ∈ normalizeUrduText l, isUrduChar c = false := by
  unfold normalizeUrduText
  split
  · simp
  · exact noUrdu_trimS (noUrdu_cnGo (noUrdu_fixCRLF (noUrdu_stripBoilerplate
      (noUrdu_stripQuotes (noUrdu_cwGo (noUrdu_trimS h) false)))) false)

/-- C5: `validateUrduTranslation` accepts exactly when the candidate's
quality score reaches the 0.5 threshold and the analyzed candidate carries
Urdu script; in particular a candidate with zero Urdu-script characters is
always rejected, whatever the other metrics say. -/
theorem claimC5_isValid_iff (src cand : Str) :
    ((validateUrduTranslationD src cand).isValid = true ↔
      (50 ≤ (analyzeUrduTextQuality cand).qualityScore ∧
        (analyzeUrduTextQuality cand).hasUrduScript = true)) ∧
    ((∀ c ∈ cand, isUrduChar c = false) →
      (validateUrduTranslationD src cand).isValid = false) := by
  constructor
  · unfold validateUrduTranslationD validateUrduTranslation
    dsimp only
    simp [Bool.and_eq_true, decide_eq_true_eq]
  · intro h
    have hscript : (analyzeUrduTextQuality cand).hasUrduScript = false := by
      show containsUrduScript (normalizeUrduText cand) = false
      unfold containsUrduScript
      rw [List.any_eq_false]
      intro c hc
      simp [noUrdu_normalize h c hc]
    unfold validateUrduTranslationD validateUrduTranslation
    dsimp only
    rw [hscript, Bool.and_false]

/-- No issue string produced by the Urdu analyzer is the one the
translation pipeline looks for: the analyzer pushes
"No Urdu script detected", never "Translation does not contain Urdu
script". -/
theorem missing_notin_analyze (t : Str) :
    missingUrduIssue ∉ (analyzeUrduTextQuality t).issues := by
  unfold analyzeUrduTextQuality
  dsimp only
  intro h
  rcases List.mem_append.mp h with h | h
  · rcases List.mem_append.mp h with h | h
    · rcases List.mem_append.mp h with h | h
      · split_ifs at h
        · exact absurd h (by decide)
        · rw [List.mem_singleton] at h
          have h2 : missingUrduIssue.head? = some 'T' := rfl
          rw [h] at h2
          exact absurd (Option.some.inj h2) (by decide)
        · exact absurd h (by decide)
      · split_ifs at h <;> exact absurd h (by decide)
    · split_ifs at h <;> exact absurd h (by decide)
  · split_ifs at h <;> exact absurd h (by decide)

/-- Neither does `validateUrduTranslation` add it: its two extra issue
strings are about length only. -/
theorem missing_notin_validate (src cand : Str) :
    missingUrduIssue ∉ (validateUrduTranslationD src cand).issues := by
  unfold validateUrduTranslationD validateUrduTranslation
  dsimp only
  intro h
  rcases List.mem_append.mp h with h | h
  · exact missing_notin_analyze cand h
  · split_ifs at h <;> exact absurd h (by decide)

/-- C1: the code_bug record.  The translation pipeline's fallback branch
tests `validation.issues` for a string the validator can never produce, so
the branch is dead: the pipeline always returns the post-processed
candidate, and at the concrete non-Urdu candidate below the English text
(with an appended `۔`) reaches the caller instead of the deterministic
dictionary fallback. -/
theorem claimC1_missing_urdu_check_dead :
    (∀ src cand : Str, missingUrduIssue ∉ (validateUrduTranslationD src cand).issues) ∧
    (∀ src resp : Str, cohereTranslateToUrdu src resp =
      postProcessUrduTranslation (cleanTranslationResponse resp)) ∧
    ((validateUrduTranslationD (s2l "hello world greetings to everyone here")
        (s2l "This is clearly English text okay")).metrics.hasUrduScript = false ∧
     (validateUrduTranslationD (s2l "hello world greetings to everyone here")
        (s2l "This is clearly English text okay")).isValid = false ∧
     cohereTranslateToUrdu (s2l "hello world greetings to everyone here")
        (s2l "This is clearly English text okay") =
       s2l "This is clearly English text okay" ++ ['۔'] ∧
     cohereTranslateToUrdu (s2l "hello world greetings to everyone here")
        (s2l "This is clearly English text okay") ≠
       postProcessUrduTranslation (generateFallbackTranslation
         (s2l "hello world greetings to everyone here"))) := by
  refine ⟨missing_notin_validate, ?_, by decide, by decide, by decide, by decide⟩
  intro src resp
  unfold cohereTranslateToUrdu
  dsimp only
  cases hc : (validateUrduTranslationD src
      (cleanTranslationResponse resp)).issues.contains missingUrduIssue with
  | false => simp [hc]
  | true =>
    exact absurd (List.mem_of_elem_eq_true hc) (missing_notin_validate _ _)

/-- `scoreFrom` preserves length. -/
theorem scoreFrom_length (total : ℕ) :
    ∀ (i : ℕ) (l : List Str), (scoreFrom total i l).length = l.length := by
  intro i l
  induction l generalizing i with
  | nil => rfl
  | cons s rest ih => simp [scoreFrom, ih]

/-- Indices produced by `scoreFrom` start at the given counter. -/
theorem scoreFrom_index_ge (total : ℕ) :
    ∀ (i : ℕ) (l : List Str), ∀ x ∈ scoreFrom total i l, i ≤ x.index := by
  intro i l
  induction l generalizing i with
  | nil => simp [scoreFrom]
  | cons s rest ih =>
    intro x hx
    rcases List.mem_cons.mp hx with rfl | hx
    · exact le_refl _
    · exact le_trans (Nat.le_succ i) (ih (i + 1) x hx)

/-- The scored sentences carry strictly increasing original indices. -/
theorem scoreFrom_pairwise (total : ℕ) :
    ∀ (i : ℕ) (l : List Str),
      List.Pairwise (fun a b : ScoredSentence => a.index < b.index)
        (scoreFrom total i l) := by
  intro i l
  induction l generalizing i with
  | nil => exact List.Pairwise.nil
  | cons s rest ih =>
    refine List.pairwise_cons.mpr ⟨?_, ih (i + 1)⟩
    intro b hb
    exact lt_of_lt_of_le (Nat.lt_succ_self i) (scoreFrom_index_ge total (i + 1) rest b hb)

/-- Stable insertion permutes with direct cons. -/
theorem insertByScoreDesc_perm (x : ScoredSentence) (l : List ScoredSentence) :
    List.Perm (insertByScoreDesc x l) (x :: l) := by
  induction l with
  | nil => exact List.Perm.refl _
  | cons y ys ih =>
    unfold insertByScoreDesc
    split
    · exact List.Perm.trans (List.Perm.cons y ih) (List.Perm.swap x y ys)
    · exact List.Perm.refl _

/-- Inserting an element whose index exceeds every present index preserves
the lexicographic sortedness: this is the stability of the insertion. -/
theorem insertByScoreDesc_pairwise (x : ScoredSentence) :
    ∀ (l : List ScoredSentence), List.Pairwise scoreLex l →
      (∀ y ∈ l, y.index < x.index) →
      List.Pairwise scoreLex (insertByScoreDesc x l) := by
  intro l
  induction l with
  | nil => intro _ _; simp [insertByScoreDesc]
  | cons y ys ih =>
    intro hl hidx
    have hy := List.pairwise_cons.mp hl
    unfold insertByScoreDesc
    split
    next hs =>
      refine List.pairwise_cons.mpr ⟨?_, ih hy.2 (fun z hz => hidx z (List.mem_cons_of_mem y hz))⟩
      intro z hz
      rcases List.mem_cons.mp ((insertByScoreDesc_perm x ys).mem_iff.mp hz) with rfl | hz
      · rcases lt_or_eq_of_le hs with hlt | heq
        · exact Or.inl hlt
        · exact Or.inr ⟨heq.symm, hidx y (List.mem_cons_self y ys)⟩
      · exact hy.1 z hz
    next hs =>
      push_neg at hs
      refine List.pairwise_cons.mpr ⟨?_, hl⟩
      intro z hz
      rcases List.mem_cons.mp hz with rfl | hz
      · exact Or.inl hs
      · rcases hy.1 z hz with hlt | ⟨heq, _⟩
        · exact Or.inl (lt_trans hlt hs)
        · exact Or.inl (heq ▸ hs)

/-- Folding stable insertions permutes with appending. -/
theorem foldInsertScore_perm :
    ∀ (l acc : List ScoredSentence),
      List.Perm (l.foldl (fun a x => insertByScoreDesc x a) acc) (acc ++ l) := by
  intro l
  induction l with
  | nil => simp
  | cons x xs ih =>
    intro acc
    have h1 : List.Perm (xs.foldl (fun a x => insertByScoreDesc x a)
        (insertByScoreDesc x acc)) (insertByScoreDesc x acc ++ xs) := ih _
    have h2 : List.Perm (insertByScoreDesc x acc ++ xs) ((x :: acc) ++ xs) :=
      (insertByScoreDesc_perm x acc).append_right xs
    have h3 : List.Perm (x :: (acc ++ xs)) (acc ++ x :: xs) :=
      List.Perm.symm List.perm_middle
    exact (h1.trans h2).trans h3

/-- Folding stable insertions of an index-increasing input over a
lexicographically sorted accumulator whose indices all precede the input's
yields a lexicographically sorted list. -/
theorem foldInsertScore_pairwise :
    ∀ (l acc : List ScoredSentence),
      List.Pairwise scoreLex acc →
      (∀ y ∈ acc, ∀ x ∈ l, y.index < x.index) →
      List.Pairwise (fun a b : ScoredSentence => a.index < b.index) l →
      List.Pairwise scoreLex (l.foldl (fun a x => insertByScoreDesc x a) acc) := by
  intro l
  induction l with
  | nil => intro acc h _ _; exact h
  | cons x xs ih =>
    intro acc hacc hcross hl
    have hx := List.pairwise_cons.mp hl
    refine ih (insertByScoreDesc x acc) ?_ ?_ hx.2
    · exact insertByScoreDesc_pairwise x acc hacc
        (fun y hy => hcross y hy x (List.mem_cons_self x xs))
    · intro y hy z hz
      rcases List.mem_cons.mp ((insertByScoreDesc_perm x acc).mem_iff.mp hy) with rfl | hy
      · exact hx.1 z hz
      · exact hcross y hy z (List.mem_cons_of_mem x hz)

/-- The descending stable sort permutes its input. -/
theorem sortByScoreDesc_perm (l : List ScoredSentence) :
    List.Perm (sortByScoreDesc l) l := by
  have h := foldInsertScore_perm l []
  simpa [sortByScoreDesc] using h

/-- On an input with strictly increasing indices the descending stable
sort is sorted for the lexicographic order (score, then earlier index). -/
theorem sortByScoreDesc_pairwise {l : List ScoredSentence}
    (hl : List.Pairwise (fun a b : ScoredSentence => a.index < b.index) l) :
    List.Pairwise scoreLex (sortByScoreDesc l) :=
  foldInsertScore_pairwise l [] List.Pairwise.nil (by simp) hl

/-- Stable insertion by index permutes with direct cons. -/
theorem insertByIndex_perm (x : ScoredSentence) (l : List ScoredSentence) :
    List.Perm (insertByIndex x l) (x :: l) := by
  induction l with
  | nil => exact List.Perm.refl _
  | cons y ys ih =>
    unfold insertByIndex
    split
    · exact List.Perm.trans (List.Perm.cons y ih) (List.Perm.swap x y ys)
    · exact List.Perm.refl _

/-- Insertion by index preserves sortedness by index. -/
theorem insertByIndex_pairwise (x : ScoredSentence) :
    ∀ (l : List ScoredSentence),
      List.Pairwise (fun a b : ScoredSentence => a.index ≤ b.index) l →
      List.Pairwise (fun a b : ScoredSentence => a.index ≤ b.index)
        (insertByIndex x l) := by
  intro l
  induction l with
  | nil => intro _; simp [insertByIndex]
  | cons y ys ih =>
    intro hl
    have hy := List.pairwise_cons.mp hl
    unfold insertByIndex
    split
    next hle =>
      refine List.pairwise_cons.mpr ⟨?_, ih hy.2⟩
      intro z hz
      rcases List.mem_cons.mp ((insertByIndex_perm x ys).mem_iff.mp hz) with rfl | hz
      · exact hle
      · exact hy.1 z hz
    next hle =>
      push_neg at hle
      refine List.pairwise_cons.mpr ⟨?_, hl⟩
      intro z hz
      rcases List.mem_cons.mp hz with rfl | hz
      · exact le_of_lt hle
      · exact le_trans (le_of_lt hle) (hy.1 z hz)

/-- The re-sort by original index permutes its input. -/
theorem sortByIndex_perm (l : List ScoredSentence) :
    List.Perm (sortByIndex l) l := by
  have h : ∀ (m acc : List ScoredSentence),
      List.Perm (m.foldl (fun a x => insertByIndex x a) acc) (acc ++ m) := by
    intro m
    induction m with
    | nil => simp
    | cons x xs ih =>
      intro acc
      have h1 : List.Perm (xs.foldl (fun a x => insertByIndex x a)
          (insertByIndex x acc)) (insertByIndex x acc ++ xs) := ih _
      have h2 : List.Perm (insertByIndex x acc ++ xs) ((x :: acc) ++ xs) :=
        (insertByIndex_perm x acc).append_right xs
      have h3 : List.Perm (x :: (acc ++ xs)) (acc ++ x :: xs) :=
        List.Perm.symm List.perm_middle
      exact (h1.trans h2).trans h3
  simpa [sortByIndex] using h l []

/-- The re-sort by original index is sorted by index. -/
theorem sortByIndex_pairwise (l : List ScoredSentence) :
    List.Pairwise (fun a b : ScoredSentence => a.index ≤ b.index) (sortByIndex l) := by
  have h : ∀ (m acc : List ScoredSentence),
      List.Pairwise (fun a b : ScoredSentence => a.index ≤ b.index) acc →
      List.Pairwise (fun a b : ScoredSentence => a.index ≤ b.index)
        (m.foldl (fun a x => insertByIndex x a) acc) := by
    intro m
    induction m with
    | nil => intro acc h; exact h
    | cons x xs ih => intro acc hacc; exact ih _ (insertByIndex_pairwise x acc hacc)
  exact h l [] List.Pairwise.nil

/-- C6: for every non-empty list of segmented sentences of length n the
summarizer selects exactly `min(5, ceil(n * 0.3))` sentences; the selected
sentences appear in strictly increasing original-index order; every
selected sentence beats every unselected one in the (score desc, index
asc) priority order — score ties are broken in favour of the earlier
index, by stability of the sort; and the summary of
`generateExtractiveSummary` is exactly the selected sentences joined with
". " plus a trailing period. -/
theorem claimC6_selection (sentences : List Str) (hne : sentences ≠ []) :
    ((selectTopSentences (scoreSentences sentences) sentences.length).length =
      min 5 ((3 * sentences.length + 9) / 10))
    ∧ List.Pairwise (fun a b : ScoredSentence => a.index < b.index)
        (selectTopSentences (scoreSentences sentences) sentences.length)
    ∧ (∀ a ∈ selectTopSentences (scoreSentences sentences) sentences.length,
        ∀ b ∈ scoreSentences sentences,
          b ∉ selectTopSentences (scoreSentences sentences) sentences.length →
            b.score < a.score ∨ (a.score = b.score ∧ a.index < b.index))
    ∧ (∀ content : Str, (trimS content).isEmpty = false →
        (generateExtractiveSummary content).map SummaryResult.summary =
          some (joinSep (s2l ". ")
            ((selectTopSentences
              (scoreSentences (extractSentences (preprocessContent content)))
              (extractSentences (preprocessContent content)).length).map
                (fun x => x.sentence)) ++ s2l ".")) := by
  have lenScored : (scoreSentences sentences).length = sentences.length :=
    scoreFrom_length _ 0 _
  have permS : List.Perm (sortByScoreDesc (scoreSentences sentences))
      (scoreSentences sentences) := sortByScoreDesc_perm _
  have lenSorted : (sortByScoreDesc (scoreSentences sentences)).length =
      sentences.length := permS.length_eq.trans lenScored
  have hmaxle : maxSummarySentences sentences.length ≤ sentences.length := by
    unfold maxSummarySentences
    omega
  have pwIdx : List.Pairwise (fun a b : ScoredSentence => a.index < b.index)
      (scoreSentences sentences) := scoreFrom_pairwise _ 0 _
  have pwLex : List.Pairwise scoreLex (sortByScoreDesc (scoreSentences sentences)) :=
    sortByScoreDesc_pairwise pwIdx
  have hself : selectTopSentences (scoreSentences sentences) sentences.length =
      sortByIndex ((sortByScoreDesc (scoreSentences sentences)).take
        (maxSummarySentences sentences.length)) := rfl
  refine ⟨?_, ?_, ?_, ?_⟩
  · rw [hself, (sortByIndex_perm _).length_eq, List.length_take, lenSorted,
      min_eq_left hmaxle]
    rfl
  · have pwLe := sortByIndex_pairwise
      ((sortByScoreDesc (scoreSentences sentences)).take
        (maxSummarySentences sentences.length))
    have ndScoredIdx : ((scoreSentences sentences).map (fun x => x.index)).Nodup :=
      (List.pairwise_map.mpr pwIdx).imp (fun h => Nat.ne_of_lt h)
    have ndSortedIdx : ((sortByScoreDesc (scoreSentences sentences)).map
        (fun x => x.index)).Nodup := ((permS.map _).nodup_iff).mpr ndScoredIdx
    have ndTakeIdx : (((sortByScoreDesc (scoreSentences sentences)).take
        (maxSummarySentences sentences.length)).map (fun x => x.index)).Nodup :=
      List.Nodup.sublist ((List.take_sublist _ _).map _) ndSortedIdx
    have ndSelIdx : ((selectTopSentences (scoreSentences sentences)
        sentences.length).map (fun x => x.index)).Nodup := by
      rw [hself]
      exact (((sortByIndex_perm _).map _).nodup_iff).mpr ndTakeIdx
    have pwNe : List.Pairwise (fun a b : ScoredSentence => a.index ≠ b.index)
        (selectTopSentences (scoreSentences sentences) sentences.length) :=
      List.pairwise_map.mp ndSelIdx
    rw [hself]
    exact ((pwLe.and (hself ▸ pwNe)).imp (fun h => lt_of_le_of_ne h.1 h.2))
  · intro a ha b hb hbn
    have ha2 : a ∈ (sortByScoreDesc (scoreSentences sentences)).take
        (maxSummarySentences sentences.length) :=
      ((sortByIndex_perm _).mem_iff).mp (hself ▸ ha)
    have hb2 : b ∈ sortByScoreDesc (scoreSentences sentences) :=
      permS.mem_iff.mpr hb
    have hbn2 : b ∉ (sortByScoreDesc (scoreSentences sentences)).take
        (maxSummarySentences sentences.length) := by
      intro hmem
      exact hbn (hself ▸ ((sortByIndex_perm _).mem_iff).mpr hmem)
    have hsplit : (sortByScoreDesc (scoreSentences sentences)).take
          (maxSummarySentences sentences.length) ++
        (sortByScoreDesc (scoreSentences sentences)).drop
          (maxSummarySentences sentences.length) =
        sortByScoreDesc (scoreSentences sentences) :=
      List.take_append_drop _ _
    rw [← hsplit] at hb2
    have hbd : b ∈ (sortByScoreDesc (scoreSentences sentences)).drop
        (maxSummarySentences sentences.length) := by
      rcases List.mem_append.mp hb2 with h | h
      · exact absurd h hbn2
      · exact h
    have pwApp : List.Pairwise scoreLex
        ((sortByScoreDesc (scoreSentences sentences)).take
            (maxSummarySentences sentences.length) ++
          (sortByScoreDesc (scoreSentences sentences)).drop
            (maxSummarySentences sentences.length)) := by
      rw [hsplit]
      exact pwLex
    exact (List.pairwise_append.mp pwApp).2.2 a ha2 b hbd
  · intro content hc
    unfold generateExtractiveSummary
    simp only [hc, Bool.false_eq_true, if_false, Option.map_some']
    have hne2 : (joinSep (s2l ". ")
        ((selectTopSentences
          (scoreSentences (extractSentences (preprocessContent content)))
          (extractSentences (preprocessContent content)).length).map
            (fun x => x.sentence)) ++ s2l ".").isEmpty = false := by
      rw [List.isEmpty_eq_false]
      simp [s2l]
    simp [hne2]

/-- C6 witness: the selection contract at a concrete two-sentence input. -/
theorem claimC6_selection_witness :
    ([s2l "this is the first important sentence",
      s2l "another key sentence follows right here"] ≠ ([] : List Str)) ∧
    (((selectTopSentences (scoreSentences [s2l "this is the first important sentence",
        s2l "another key sentence follows right here"])
        ([s2l "this is the first important sentence",
          s2l "another key sentence follows right here"] : List Str).length).length =
      min 5 ((3 * ([s2l "this is the first important sentence",
        s2l "another key sentence follows right here"] : List Str).length + 9) / 10))
    ∧ List.Pairwise (fun a b : ScoredSentence => a.index < b.index)
        (selectTopSentences (scoreSentences [s2l "this is the first important sentence",
          s2l "another key sentence follows right here"])
          ([s2l "this is the first important sentence",
            s2l "another key sentence follows right here"] : List Str).length)
    ∧ (∀ a ∈ selectTopSentences (scoreSentences [s2l "this is the first important sentence",
          s2l "another key sentence follows right here"])
          ([s2l "this is the first important sentence",
            s2l "another key sentence follows right here"] : List Str).length,
        ∀ b ∈ scoreSentences [s2l "this is the first important sentence",
          s2l "another key sentence follows right here"],
          b ∉ selectTopSentences (scoreSentences [s2l "this is the first important sentence",
            s2l "another key sentence follows right here"])
            ([s2l "this is the first important sentence",
              s2l "another key sentence follows right here"] : List Str).length →
            b.score < a.score ∨ (a.score = b.score ∧ a.index < b.index))
    ∧ (∀ content : Str, (trimS content).isEmpty = false →
        (generateExtractiveSummary content).map SummaryResult.summary =
          some (joinSep (s2l ". ")
            ((selectTopSentences
              (scoreSentences (extractSentences (preprocessContent content)))
              (extractSentences (preprocessContent content)).length).map
                (fun x => x.sentence)) ++ s2l "."))) :=
  ⟨by decide, claimC6_selection _ (by decide)⟩

/-- The split worker never returns an empty fragment list. -/
theorem srGo_ne_nil (p : Char → Bool) :
    ∀ (flag : Bool) (l : Str), srGo p flag l ≠ [] := by
  intro flag l
  induction l generalizing flag with
  | nil => simp [srGo]
  | cons c t ih =>
    by_cases hp : p c = true
    · cases flag with
      | true =>
        have h1 : srGo p true (c :: t) = srGo p true t := by simp [srGo, hp]
        rw [h1]
        exact ih true
      | false =>
        have h1 : srGo p false (c :: t) = [] :: srGo p true t := by
          simp [srGo, hp]
        rw [h1]
        simp
    · have h1 : srGo p flag (c :: t) = consHead c (srGo p false t) := by
        cases flag <;> simp [srGo, hp]
      rw [h1]
      cases h : srGo p false t with
      | nil => exact absurd h (ih false)
      | cons f fs => simp [consHead]

/-- Head of `consHead` on a nonempty fragment list. -/
theorem consHead_headI (c : Char) (X : List Str) (h : X ≠ []) :
    (consHead c X).headI = c :: X.headI := by
  cases X with
  | nil => exact absurd rfl h
  | cons f fs => rfl

/-- Tail of `consHead` on a nonempty fragment list. -/
theorem consHead_tail (c : Char) (X : List Str) (h : X ≠ []) :
    (consHead c X).tail = X.tail := by
  cases X with
  | nil => exact absurd rfl h
  | cons f fs => rfl

/-- Filtered length of a nonempty list, split at its head. -/
theorem filterLen_decomp (q : Str → Bool) (X : List Str) (h : X ≠ []) :
    (X.filter q).length =
      (if q X.headI = true then 1 else 0) + (X.tail.filter q).length := by
  cases X with
  | nil => exact absurd rfl h
  | cons f fs =>
    simp only [List.filter_cons, List.headI, List.tail_cons]
    split <;> simp [Nat.add_comm]

/-- Appending to the text extends the final fragment of the split and can
only add fragments: the head fragment is extended and the tail's filtered
count does not decrease. -/
theorem srGo_append_extend (p : Char → Bool) (q : Str → Bool)
    (hq : ∀ a b, q a = true → q (a ++ b) = true) (s : Str) :
    ∀ (t : Str) (flag : Bool),
      (∃ e, (srGo p flag (t ++ s)).headI = (srGo p flag t).headI ++ e) ∧
      ((srGo p flag t).tail.filter q).length ≤
        ((srGo p flag (t ++ s)).tail.filter q).length := by
  intro t
  induction t with
  | nil =>
    intro flag
    refine ⟨⟨(srGo p flag s).headI, by simp [srGo]⟩, ?_⟩
    simp [srGo]
  | cons c t ih =>
    intro flag
    by_cases hp : p c = true
    · cases flag with
      | true =>
        have h1 : srGo p true (c :: (t ++ s)) = srGo p true (t ++ s) := by
          simp [srGo, hp]
        have h2 : srGo p true (c :: t) = srGo p true t := by simp [srGo, hp]
        rw [List.cons_append, h1, h2]
        exact ih true
      | false =>
        have h1 : srGo p false (c :: (t ++ s)) = [] :: srGo p true (t ++ s) := by
          simp [srGo, hp]
        have h2 : srGo p false (c :: t) = [] :: srGo p true t := by
          simp [srGo, hp]
        rw [List.cons_append, h1, h2]
        obtain ⟨⟨e, he⟩, ht⟩ := ih true
        refine ⟨⟨[], by simp⟩, ?_⟩
        simp only [List.tail_cons]
        rw [filterLen_decomp q _ (srGo_ne_nil p true t),
          filterLen_decomp q _ (srGo_ne_nil p true (t ++ s)), he]
        have hh : (if q (srGo p true t).headI = true then 1 else 0) ≤
            (if q ((srGo p true t).headI ++ e) = true then 1 else 0) := by
          split_ifs with h1 h2
          · exact le_refl _
          · exact absurd (hq _ _ h1) h2
          · omega
          · exact le_refl _
        omega
    · have h1 : srGo p flag (c :: (t ++ s)) = consHead c (srGo p false (t ++ s)) := by
        cases flag <;> simp [srGo, hp]
      have h2 : srGo p flag (c :: t) = consHead c (srGo p false t) := by
        cases flag <;> simp [srGo, hp]
      rw [List.cons_append, h1, h2]
      obtain ⟨⟨e, he⟩, ht⟩ := ih false
      constructor
      · refine ⟨e, ?_⟩
        rw [consHead_headI c _ (srGo_ne_nil p false (t ++ s)),
          consHead_headI c _ (srGo_ne_nil p false t), he, List.cons_append]
      · rw [consHead_tail c _ (srGo_ne_nil p false (t ++ s)),
          consHead_tail c _ (srGo_ne_nil p false t)]
        exact ht

/-- Appending text never decreases the number of fragments accepted by an
append-monotone predicate. -/
theorem splitRuns_count_mono (p : Char → Bool) (q : Str → Bool)
    (hq : ∀ a b, q a = true → q (a ++ b) = true) (t s : Str) :
    ((splitRuns p t).filter q).length ≤ ((splitRuns p (t ++ s)).filter q).length := by
  obtain ⟨⟨e, he⟩, ht⟩ := srGo_append_extend p q hq s t false
  unfold splitRuns
  rw [filterLen_decomp q _ (srGo_ne_nil p false t),
    filterLen_decomp q _ (srGo_ne_nil p false (t ++ s)), he]
  have hh : (if q (srGo p false t).headI = true then 1 else 0) ≤
      (if q ((srGo p false t).headI ++ e) = true then 1 else 0) := by
    split_ifs with h1 h2
    · exact le_refl _
    · exact absurd (hq _ _ h1) h2
    · omega
    · exact le_refl _
  omega

/-- In skipping mode the split worker is the split of the text with its
separator prefix removed. -/
theorem srGo_true_eq (p : Char → Bool) :
    ∀ l : Str, srGo p true l = srGo p false (l.dropWhile p) := by
  intro l
  induction l with
  | nil => rfl
  | cons c t ih =>
    by_cases hp : p c = true
    · rw [List.dropWhile_cons, if_pos hp]
      rw [← ih]
      simp [srGo, hp]
    · rw [List.dropWhile_cons, if_neg hp]
      simp [srGo, hp]

/-- Dropping the separator prefix of the text does not change the number
of accepted fragments (the dropped fragment is empty and rejected). -/
theorem splitRuns_count_dropWhile (p : Char → Bool) (q : Str → Bool)
    (hqnil : q [] = false) (l : Str) :
    ((splitRuns p (l.dropWhile p)).filter q).length =
      ((splitRuns p l).filter q).length := by
  cases l with
  | nil => rfl
  | cons c t =>
    by_cases hp : p c = true
    · rw [List.dropWhile_cons]
      simp only [hp, if_true]
      have h1 : splitRuns p (c :: t) = [] :: srGo p true t := by
        simp [splitRuns, srGo, hp]
      rw [h1, srGo_true_eq]
      simp [List.filter_cons, hqnil, splitRuns]
    · rw [List.dropWhile_cons, if_neg hp]

/-- A separator-only text splits, in skipping mode, into one empty
fragment. -/
theorem srGo_true_allSep (p : Char → Bool) :
    ∀ w : Str, (∀ c ∈ w, p c = true) → srGo p true w = [[]] := by
  intro w
  induction w with
  | nil => intro _; rfl
  | cons c t ih =>
    intro hw
    have hc := hw c (List.mem_cons_self c t)
    simp only [srGo, hc, if_true]
    exact ih (fun d hd => hw d (List.mem_cons_of_mem c hd))

/-- Appending a separator-only suffix changes neither the head fragment
nor the accepted count of the remaining fragments. -/
theorem srGo_append_allSep (p : Char → Bool) (q : Str → Bool)
    (hqnil : q [] = false) (w : Str) (hw : ∀ c ∈ w, p c = true) :
    ∀ (t : Str) (flag : Bool),
      (srGo p flag (t ++ w)).headI = (srGo p flag t).headI ∧
      ((srGo p flag (t ++ w)).tail.filter q).length =
        ((srGo p flag t).tail.filter q).length := by
  intro t
  induction t with
  | nil =>
    intro flag
    cases flag with
    | true =>
      rw [List.nil_append, srGo_true_allSep p w hw]
      exact ⟨rfl, rfl⟩
    | false =>
      cases w with
      | nil => exact ⟨rfl, rfl⟩
      | cons c w2 =>
        have hc := hw c (List.mem_cons_self c w2)
        have h1 : srGo p false (([] : Str) ++ c :: w2) = [] :: srGo p true w2 := by
          simp [srGo, hc]
        rw [h1, srGo_true_allSep p w2
          (fun d hd => hw d (List.mem_cons_of_mem c hd))]
        refine ⟨rfl, ?_⟩
        simp [List.filter_cons, hqnil, srGo]
  | cons c t ih =>
    intro flag
    by_cases hp : p c = true
    · cases flag with
      | true =>
        have h1 : srGo p true (c :: (t ++ w)) = srGo p true (t ++ w) := by
          simp [srGo, hp]
        have h2 : srGo p true (c :: t) = srGo p true t := by simp [srGo, hp]
        rw [List.cons_append, h1, h2]
        exact ih true
      | false =>
        have h1 : srGo p false (c :: (t ++ w)) = [] :: srGo p true (t ++ w) := by
          simp [srGo, hp]
        have h2 : srGo p false (c :: t) = [] :: srGo p true t := by
          simp [srGo, hp]
        rw [List.cons_append, h1, h2]
        obtain ⟨hhead, htail⟩ := ih true
        refine ⟨rfl, ?_⟩
        simp only [List.tail_cons]
        rw [filterLen_decomp q _ (srGo_ne_nil p true (t ++ w)),
          filterLen_decomp q _ (srGo_ne_nil p true t), hhead, htail]
    · have h1 : srGo p flag (c :: (t ++ w)) = consHead c (srGo p false (t ++ w)) := by
        cases flag <;> simp [srGo, hp]
      have h2 : srGo p flag (c :: t) = consHead c (srGo p false t) := by
        cases flag <;> simp [srGo, hp]
      rw [List.cons_append, h1, h2]
      obtain ⟨hhead, htail⟩ := ih false
      constructor
      · rw [consHead_headI c _ (srGo_ne_nil p false (t ++ w)),
          consHead_headI c _ (srGo_ne_nil p false t), hhead]
      · rw [consHead_tail c _ (srGo_ne_nil p false (t ++ w)),
          consHead_tail c _ (srGo_ne_nil p false t)]
        exact htail

/-- Removing the trailing separator run does not change the accepted
count. -/
theorem splitRuns_count_rdrop (p : Char → Bool) (q : Str → Bool)
    (hqnil : q [] = false) (y : Str) :
    ((splitRuns p (List.rdropWhile p y)).filter q).length =
      ((splitRuns p y).filter q).length := by
  have hdecomp : List.rdropWhile p y ++ List.rtakeWhile p y = y := by
    unfold List.rdropWhile List.rtakeWhile
    rw [← List.reverse_append, List.takeWhile_append_dropWhile, List.reverse_reverse]
  have hall : ∀ c ∈ List.rtakeWhile p y, p c = true :=
    fun c hc => List.mem_rtakeWhile_imp hc
  obtain ⟨hhead, htail⟩ :=
    srGo_append_allSep p q hqnil _ hall (List.rdropWhile p y) false
  conv_rhs => rw [← hdecomp]
  unfold splitRuns
  rw [filterLen_decomp q _ (srGo_ne_nil p false (List.rdropWhile p y)),
    filterLen_decomp q _
      (srGo_ne_nil p false (List.rdropWhile p y ++ List.rtakeWhile p y)),
    hhead, htail]

/-- `countWords` over the trimmed text equals the accepted count over the
raw text. -/
theorem countWordsTF_eq (t : Str) :
    countWordsTF t =
      ((splitRuns isJsWs t).filter (fun w => decide (0 < w.length))).length := by
  unfold countWordsTF trimS
  rw [splitRuns_count_rdrop isJsWs _ rfl, splitRuns_count_dropWhile isJsWs _ rfl]

/-- Appending text never decreases the word count. -/
theorem countWordsTF_mono (t s : Str) : countWordsTF t ≤ countWordsTF (t ++ s) := by
  rw [countWordsTF_eq, countWordsTF_eq]
  refine splitRuns_count_mono isJsWs _ ?_ t s
  intro a b h
  simp only [decide_eq_true_eq, List.length_append] at h ⊢
  omega

/-- Dropping while over an all-satisfying first part skips it wholly. -/
theorem dropWhile_append_all {p : Char → Bool} :
    ∀ {w : Str} (y : Str), (∀ c ∈ w, p c = true) →
      List.dropWhile p (w ++ y) = List.dropWhile p y := by
  intro w
  induction w with
  | nil => intro y _; rfl
  | cons c t ih =>
    intro y hw
    rw [List.cons_append, List.dropWhile_cons,
      if_pos (hw c (List.mem_cons_self c t))]
    exact ih y (fun d hd => hw d (List.mem_cons_of_mem c hd))

/-- When the first part survives the drop, the second is untouched. -/
theorem dropWhile_append_sur {p : Char → Bool} :
    ∀ {w : Str} (y : Str), List.dropWhile p w ≠ [] →
      List.dropWhile p (w ++ y) = List.dropWhile p w ++ y := by
  intro w
  induction w with
  | nil => intro y h; exact absurd rfl h
  | cons c t ih =>
    intro y h
    rw [List.dropWhile_cons] at h
    rw [List.cons_append, List.dropWhile_cons]
    by_cases hp : p c = true
    · rw [if_pos hp]
      rw [if_pos hp] at h
      rw [List.dropWhile_cons, if_pos hp]
      exact ih y h
    · rw [if_neg hp, List.dropWhile_cons, if_neg hp, List.cons_append]

/-- Appending text never shortens the right-trimmed form. -/
theorem rdropWhile_append_len (p : Char → Bool) (x b : Str) :
    (List.rdropWhile p x).length ≤ (List.rdropWhile p (x ++ b)).length := by
  by_cases hb : List.rdropWhile p b = []
  · have hball : ∀ c ∈ b, p c = true := by
      intro c hc
      exact List.rdropWhile_eq_nil_iff.mp hb c hc
    have heq : List.rdropWhile p (x ++ b) = List.rdropWhile p x := by
      unfold List.rdropWhile
      rw [List.reverse_append, dropWhile_append_all _
        (fun c hc => hball c (List.mem_reverse.mp hc))]
    rw [heq]
  · have hbne : List.dropWhile p b.reverse ≠ [] := by
      intro hcontra
      apply hb
      unfold List.rdropWhile
      rw [hcontra]
      rfl
    have heq : List.rdropWhile p (x ++ b) = x ++ List.rdropWhile p b := by
      unfold List.rdropWhile
      rw [List.reverse_append, dropWhile_append_sur _ hbne, List.reverse_append,
        List.reverse_reverse]
    rw [heq, List.length_append]
    have h1 : (List.rdropWhile p x).length ≤ x.length := by
      unfold List.rdropWhile
      rw [List.length_reverse]
      have := (List.dropWhile_suffix (l := x.reverse) p).length_le
      simpa using this
    omega

/-- Appending text never shortens the trimmed form. -/
theorem trimS_length_mono (a b : Str) :
    (trimS a).length ≤ (trimS (a ++ b)).length := by
  unfold trimS
  by_cases ha : List.dropWhile isJsWs a = []
  · rw [ha]
    simp [List.rdropWhile]
  · rw [dropWhile_append_sur b ha]
    exact rdropWhile_append_len isJsWs (List.dropWhile isJsWs a) b

/-- Appending text never decreases the count of proper sentences. -/
theorem sentStructCount_mono (t s : Str) :
    sentStructCount t ≤ sentStructCount (t ++ s) := by
  unfold sentStructCount
  refine splitRuns_count_mono isSumTerm _ ?_ t s
  intro a b h
  simp only [decide_eq_true_eq] at h ⊢
  exact lt_of_lt_of_le h (trimS_length_mono a b)

/-- C8 counterexample: `validateContent` is not monotonic under appending
unique, sentence-structured text: appending a fresh sentence containing
the navigation keyword "menu" lowers the score by the navigation penalty
(0.1, here 10). -/
theorem claimC8_counterexample :
    (validateContent (s2l "abcdefghijk. qrstuvwxyzz. mnopqrstuvw." ++
        s2l " The menu helps everyone greatly today.") 100).score <
      (validateContent (s2l "abcdefghijk. qrstuvwxyzz. mnopqrstuvw.") 100).score := by
  decide

/-- C8 amended: `validateContent` is monotonic under appending text as
long as the appended text does not newly trigger the vocabulary-repetition
penalty or the navigation-keyword penalty; the length, word-count and
sentence-structure penalties can never be newly triggered by appending. -/
theorem claimC8_monotone_no_new_penalties (t s : Str) (m : ℕ)
    (hratio : ratioPenalized (t ++ s) = true → ratioPenalized t = true)
    (hnav : hasNavText (t ++ s) = true → hasNavText t = true) :
    (validateContent t m).score ≤ (validateContent (t ++ s) m).score := by
  unfold validateContent
  dsimp only
  refine max_le_max (le_refl 0) ?_
  have hlen : (t ++ s).length < m → t.length < m := by
    rw [List.length_append]
    omega
  have e1 : (if decide ((t ++ s).length < m) = true then (30 : ℤ) else 0) ≤
      (if decide (t.length < m) = true then (30 : ℤ) else 0) := by
    split_ifs with h1 h2
    · exact le_refl _
    · exact absurd (decide_eq_true (hlen (of_decide_eq_true h1))) h2
    · omega
    · exact le_refl _
  have e2 : (if decide (countWordsTF (t ++ s) < 50) = true then (20 : ℤ) else 0) ≤
      (if decide (countWordsTF t < 50) = true then (20 : ℤ) else 0) := by
    split_ifs with h1 h2
    · exact le_refl _
    · exact absurd (decide_eq_true
        (lt_of_le_of_lt (countWordsTF_mono t s) (of_decide_eq_true h1))) h2
    · omega
    · exact le_refl _
  have e3 : (if ratioPenalized (t ++ s) = true then (20 : ℤ) else 0) ≤
      (if ratioPenalized t = true then (20 : ℤ) else 0) := by
    split_ifs with h1 h2
    · exact le_refl _
    · exact absurd (hratio h1) h2
    · omega
    · exact le_refl _
  have e4 : (if hasNavText (t ++ s) = true then (10 : ℤ) else 0) ≤
      (if hasNavText t = true then (10 : ℤ) else 0) := by
    split_ifs with h1 h2
    · exact le_refl _
    · exact absurd (hnav h1) h2
    · omega
    · exact le_refl _
  have e5 : (if decide (sentStructCount (t ++ s) < 3) = true then (20 : ℤ) else 0) ≤
      (if decide (sentStructCount t < 3) = true then (20 : ℤ) else 0) := by
    split_ifs with h1 h2
    · exact le_refl _
    · exact absurd (decide_eq_true
        (lt_of_le_of_lt (sentStructCount_mono t s) (of_decide_eq_true h1))) h2
    · omega
    · exact le_refl _
  omega

/-- C8 witness: appending a fresh, sentence-structured suffix without
navigation keywords at a concrete input. -/
theorem claimC8_monotone_witness :
    ((ratioPenalized (s2l "aaa bbb ccc. dddd eeee ffff." ++
        s2l " gggg hhhh iiii jjjj.") = true →
      ratioPenalized (s2l "aaa bbb ccc. dddd eeee ffff.") = true) ∧
     (hasNavText (s2l "aaa bbb ccc. dddd eeee ffff." ++
        s2l " gggg hhhh iiii jjjj.") = true →
      hasNavText (s2l "aaa bbb ccc. dddd eeee ffff.") = true)) ∧
    (validateContent (s2l "aaa bbb ccc. dddd eeee ffff.") 100).score ≤
      (validateContent (s2l "aaa bbb ccc. dddd eeee ffff." ++
        s2l " gggg hhhh iiii jjjj.") 100).score :=
  ⟨⟨by decide, by decide⟩,
    claimC8_monotone_no_new_penalties _ _ 100 (by decide) (by decide)⟩
